import Mathlib

/-!
Verification of the notes-cli task/time-tracking engine.

This file is a shallow embedding, in Lean 4, of the pure core of the Go
program in this repository: the duration codec (`parseDuration`,
`formatDuration` in the time-tracking file), the task extractor
(`extractTasks` in internal/notes/service.go), the task filter
(`filterTasks` / `matchesFilters`), the timer state machine
(`pauseTimer` / `resumeTimer` / `stopTimer`), the time-log writer
(`addTimeEntry`) and the time-report aggregator (`collectTimeData`).

Modelling conventions:
- Go strings are modelled as `String` / `List Char`; the program only
  manipulates ASCII text plus a few fixed multi-byte literals, so
  character-level modelling coincides with Go's byte-level semantics on
  every input the theorems touch.
- `time.Duration` (an int64 nanosecond count) is modelled as `Int`,
  with explicit two's-complement wrapping (`wrap64`) exactly where the
  Go code can overflow (the fallback arm of `parseDuration`).
- `time.Time` values are only ever used by this core at calendar-date
  or minute granularity; they are modelled by `GoDate` (a civil date)
  plus minute-of-day counts, in a single fixed location (the program
  uses one process-local location, and date tokens carry no zone).
- File I/O is factored out: functions that read a file receive its
  lines as a `List String`, functions that write return the new lines.
-/

deriving instance DecidableEq for Except

namespace NotesCli

/-! ### Character classes and string helpers (Go `strings` / regexp) -/

/-- ASCII decimal digit, the regexp class `\d` and Go's digit tests. -/
def isDigitC (c : Char) : Bool := '0' ≤ c && c ≤ '9'

/-- The regexp class `\s` of Go's regexp package: `[\t\n\f\r ]`. -/
def isRegexSpace (c : Char) : Bool :=
  c = ' ' || c = '\t' || c = '\n' || c = Char.ofNat 12 || c = '\r'

/-- White space as trimmed by Go's `strings.TrimSpace` (`unicode.IsSpace`),
restricted to the Latin-1 range that can occur in this program's text. -/
def isGoSpace (c : Char) : Bool :=
  c = ' ' || c = '\t' || c = '\n' || c = Char.ofNat 11 || c = Char.ofNat 12 ||
  c = '\r' || c = Char.ofNat 133 || c = Char.ofNat 160

/-- The regexp class `\w`: ASCII letters, digits and underscore. -/
def isWordC (c : Char) : Bool :=
  isDigitC c || ('a' ≤ c && c ≤ 'z') || ('A' ≤ c && c ≤ 'Z') || c = '_'

/-- ASCII lower-casing of one character (`strings.ToLower`; the program
only lower-cases ASCII keywords, tags and period names). -/
def toLowerC (c : Char) : Char :=
  if 'A' ≤ c && c ≤ 'Z' then Char.ofNat (c.toNat + 32) else c

/-- ASCII lower-casing of a character list. -/
def toLowerL (l : List Char) : List Char := l.map toLowerC

/-- Trim `isGoSpace` characters from both ends (Go `strings.TrimSpace`). -/
def trimL (l : List Char) : List Char :=
  ((l.dropWhile isGoSpace).reverse.dropWhile isGoSpace).reverse

/-- Substring test, Go `strings.Contains hay needle`. -/
def containsSub (hay needle : List Char) : Bool :=
  if needle.isPrefixOf hay then true
  else
    match hay with
    | [] => false
    | _ :: t => containsSub t needle

/-- Go `strings.Split hay [c]` for a one-character separator (the
program splits on `"h"`, `"m"`, `" "`, `"-"`, all single characters). -/
def splitChar (c : Char) : List Char → List (List Char)
  | [] => [[]]
  | x :: xs =>
    if x = c then [] :: splitChar c xs
    else
      match splitChar c xs with
      | [] => [[x]]
      | h :: t => (x :: h) :: t

/-- Go `strings.TrimSuffix l [c]` for a one-character suffix. -/
def trimSuffixChar (c : Char) (l : List Char) : List Char :=
  match l.getLast? with
  | some c' => if c' = c then l.dropLast else l
  | none => l

/-- Case-insensitive string equality, Go `strings.EqualFold` (the
program compares ASCII tags and priority names). -/
def equalFold (a b : String) : Bool := toLowerL a.data = toLowerL b.data

/-- Lexicographic order on character lists: Go's `<` on strings
(byte-lexicographic; the compared strings here are ASCII). -/
def strLtB : List Char → List Char → Bool
  | [], [] => false
  | [], _ :: _ => true
  | _ :: _, [] => false
  | a :: as, b :: bs => a < b || (a = b && strLtB as bs)

/-! ### Decimal rendering (fmt `%d`) -/

def digitChar (n : Nat) : Char := Char.ofNat (48 + n)

/-- Fuel-indexed digit expansion; `fuel` only needs to exceed the
digit count, and `natDigits` always passes enough. -/
def natDigitsF : Nat → Nat → List Char
  | 0, _ => []
  | fuel + 1, n =>
    if n < 10 then [digitChar n]
    else natDigitsF fuel (n / 10) ++ [digitChar (n % 10)]

/-- Decimal digits of a natural number, as printed by fmt's `%d`. -/
def natDigits (n : Nat) : List Char := natDigitsF (n + 1) n

/-- fmt `%d` for an int64 value. -/
def intStr (i : Int) : List Char :=
  if i < 0 then '-' :: natDigits (-i).toNat else natDigits i.toNat

/-- Numeric value of a digit list. -/
def valDigits (l : List Char) : Nat :=
  l.foldl (fun n c => n * 10 + (c.toNat - 48)) 0

/-! ### int64 arithmetic -/

/-- 2^63, the magnitude bound of int64 (`time.Duration`). -/
def i64cap : Nat := 9223372036854775808

/-- Wrap an integer into int64 two's-complement range. -/
def wrap64 (n : Int) : Int := (n + i64cap) % (2 * i64cap) - i64cap

/-- int64 multiplication with Go's silent wrap-around. -/
def i64mul (a b : Int) : Int := wrap64 (a * b)

/-- int64 addition with Go's silent wrap-around. -/
def i64add (a b : Int) : Int := wrap64 (a + b)

/-- Nanoseconds in a minute (`time.Minute`). -/
def nsMinute : Nat := 60000000000

/-- Nanoseconds in an hour (`time.Hour`). -/
def nsHour : Nat := 3600000000000

/-! ### Go `strconv.Atoi`

`Atoi` accepts an optional sign followed by a non-empty digit string and
fails (`ErrRange`) when the value does not fit in int64. -/

/-- The digit-and-range part of `Atoi`: a non-empty all-digit string
whose value fits in int64 (the negative bound is 2^63, the positive
2^63 − 1; out-of-range input is `ErrRange`, so an error). -/
def atoiDigits (neg : Bool) (ds : List Char) : Option Int :=
  if ds = [] ∨ ¬ (∀ c ∈ ds, isDigitC c) then none
  else if neg then
    if valDigits ds ≤ i64cap then some (-(valDigits ds : Int)) else none
  else
    if valDigits ds ≤ i64cap - 1 then some (valDigits ds : Int) else none

def atoi (l : List Char) : Option Int :=
  if l = [] then none
  else
    atoiDigits (l.head? = some '-')
      (if l.head? = some '-' ∨ l.head? = some '+' then l.tail else l)

/-! ### Go `time.ParseDuration`

A faithful model of the standard library's duration parser, which the
program tries first inside `parseDuration`.  The only deliberate
deviation: Go computes the contribution of a *fractional* component with
float64 arithmetic (`uint64(float64(f) * (float64(unit) / scale))`);
this model uses the exact value `f * unit / scale`.  The two agree on
every input whose value is exactly representable (in particular on all
integer-only inputs, the only ones exercised by the theorems below). -/

/-- `leadingInt`: consume leading digits, failing on int64 overflow. -/
def leadingIntGo : List Char → Nat → Option (Nat × List Char)
  | [], x => some (x, [])
  | c :: cs, x =>
    if isDigitC c then
      if x > (i64cap - 1) / 10 then none
      else if x * 10 + (c.toNat - 48) > i64cap then none
      else leadingIntGo cs (x * 10 + (c.toNat - 48))
    else some (x, c :: cs)

/-- `leadingFraction`: consume digits after a decimal point, returning
the digits' value, the power-of-ten scale, and the rest. -/
def leadingFracGo : List Char → Nat → Nat → Bool → Nat × Nat × List Char
  | [], f, scale, _ => (f, scale, [])
  | c :: cs, f, scale, ovf =>
    if isDigitC c then
      if ovf then leadingFracGo cs f scale ovf
      else if f > (i64cap - 1) / 10 then leadingFracGo cs f scale true
      else
        let y := f * 10 + (c.toNat - 48)
        if y > i64cap then leadingFracGo cs f scale true
        else leadingFracGo cs y (scale * 10) false
    else (f, scale, c :: cs)

/-- The unit table of `time.ParseDuration`, in nanoseconds. -/
def unitNs (u : List Char) : Option Nat :=
  if u = "ns".data then some 1
  else if u = "us".data then some 1000
  else if u = "µs".data then some 1000
  else if u = "μs".data then some 1000
  else if u = "ms".data then some 1000000
  else if u = "s".data then some 1000000000
  else if u = "m".data then some nsMinute
  else if u = "h".data then some nsHour
  else none

/-- Not part of a number: neither a digit nor a decimal point. -/
def notNumC (c : Char) : Bool := !(c = '.' || isDigitC c)

/-- The main loop of `time.ParseDuration`, accumulating nanoseconds in
`d`.  `fuel` bounds the number of iterations; each iteration consumes at
least the (non-empty) unit token, so `length + 1` fuel always suffices. -/
def goPDLoop : Nat → List Char → Nat → Option Nat
  | 0, _, _ => none
  | _ + 1, [], d => some d
  | fuel + 1, c :: cs, d =>
    let s := c :: cs
    if notNumC c then none
    else
      match leadingIntGo s 0 with
      | none => none
      | some (v, s1) =>
        let pre : Bool := s1.length ≠ s.length
        let frac : Nat × Nat × List Char × Bool :=
          if s1.head? = some '.' then
            let r := leadingFracGo s1.tail 0 1 false
            (r.1, r.2.1, r.2.2, decide (r.2.2.length ≠ s1.tail.length))
          else (0, 1, s1, false)
        let f := frac.1
        let scale := frac.2.1
        let s2 := frac.2.2.1
        let post := frac.2.2.2
        if !pre && !post then none
        else
          let u := s2.takeWhile notNumC
          let s3 := s2.dropWhile notNumC
          if u = [] then none
          else
            match unitNs u with
            | none => none
            | some unit =>
              if v > i64cap / unit then none
              else
                let v1 := v * unit
                let v2 := if f > 0 then v1 + f * unit / scale else v1
                if f > 0 && v2 > i64cap then none
                else
                  let d' := d + v2
                  if d' > i64cap then none
                  else goPDLoop fuel s3 d'

/-- Go `time.ParseDuration` on an already lower-cased string (the
program lower-cases before calling it). -/
def goParseDuration (s0 : List Char) : Option Int :=
  let signed : Bool × List Char :=
    if s0.head? = some '-' then (true, s0.tail)
    else if s0.head? = some '+' then (false, s0.tail)
    else (false, s0)
  let neg := signed.1
  let s := signed.2
  if s = ['0'] then some 0
  else if s = [] then none
  else
    match goPDLoop (s.length + 1) s 0 with
    | none => none
    | some d =>
      if neg then
        -- `-Duration(d)`: uint64 → int64 conversion, then negation
        some (if d = i64cap then -(i64cap : Int) else -(d : Int))
      else if d > i64cap - 1 then none
      else some (d : Int)

/-! ### The program's duration codec (time-tracking file) -/

/-- The fallback arm of `parseDuration`: hand-rolled parsing of
`<H>h<M>m`, `<H>h`, `<M>m` via `strings.Split` / `strings.TrimSuffix` /
`strconv.Atoi`.  Returns the parsed (hours, minutes) pair. -/
def parseDurFallback (t : List Char) : Except String (Int × Int) :=
  if 'h' ∈ t ∧ 'm' ∈ t then
    match splitChar 'h' t with
    | [a, b] =>
      match atoi a with
      | none => .error "atoi"
      | some hours =>
        match atoi (trimSuffixChar 'm' b) with
        | none => .error "atoi"
        | some minutes => .ok (hours, minutes)
    | _ => .error "invalid duration format"
  else if 'h' ∈ t then
    match atoi (trimSuffixChar 'h' t) with
    | none => .error "atoi"
    | some hours => .ok (hours, 0)
  else if 'm' ∈ t then
    match atoi (trimSuffixChar 'm' t) with
    | none => .error "atoi"
    | some minutes => .ok (0, minutes)
  else .error "invalid duration format"

/-- `parseDuration` of the program: lower-case, try Go's built-in
parser, then fall back to the `<H>h<M>m` / `<H>h` / `<M>m` shapes.  The
final combination `Duration(hours)*Hour + Duration(minutes)*Minute` uses
wrapping int64 arithmetic, exactly as Go does. -/
def parseDuration (s : String) : Except String Int :=
  let t := toLowerL s.data
  match goParseDuration t with
  | some d => .ok d
  | none =>
    match parseDurFallback t with
    | .error e => .error e
    | .ok hm =>
      .ok (i64add (i64mul hm.1 (nsHour : Int)) (i64mul hm.2 (nsMinute : Int)))

/-- `formatDuration` of the program.  Go computes `int(d.Hours())` and
`int(d.Minutes()) % 60` through float64; for every whole-minute duration
(the only values the theorems evaluate it on) that truncation equals the
truncated integer division/remainder used here. -/
def formatDuration (d : Int) : String :=
  if d = 0 then "0m"
  else
    let hours := d.tdiv (nsHour : Int)
    let minutes := (d.tdiv (nsMinute : Int)).tmod 60
    if 0 < hours ∧ 0 < minutes then ⟨intStr hours ++ ('h' :: (intStr minutes ++ ['m']))⟩
    else if 0 < hours then ⟨intStr hours ++ ['h']⟩
    else ⟨intStr minutes ++ ['m']⟩

/-! ### Calendar dates

`time.Time` values reach this core only as calendar dates (due dates,
time-entry dates, report windows, all at midnight) or as clock times
within one day; `GoDate` models the date part. -/

structure GoDate where
  y : Nat
  m : Nat
  d : Nat
deriving DecidableEq, Repr

def isLeap (y : Nat) : Bool := y % 4 = 0 && (y % 100 ≠ 0 || y % 400 = 0)

def daysInMonth (y m : Nat) : Nat :=
  if m = 2 then (if isLeap y then 29 else 28)
  else if m = 4 || m = 6 || m = 9 || m = 11 then 30
  else 31

/-- Strict order on dates (chronological; Go's `Time.Before` / `After`
on the midnight instants this program compares). -/
def dLtB (a b : GoDate) : Bool :=
  a.y < b.y || (a.y = b.y && (a.m < b.m || (a.m = b.m && a.d < b.d)))

/-- Go `time.Parse("2006-01-02", s)`: exactly `YYYY-MM-DD`, with month
and day validated against the calendar. -/
def parseDate (cs : List Char) : Option GoDate :=
  match cs with
  | [y1, y2, y3, y4, '-', m1, m2, '-', d1, d2] =>
    if [y1, y2, y3, y4, m1, m2, d1, d2].all isDigitC then
      let y := valDigits [y1, y2, y3, y4]
      let m := valDigits [m1, m2]
      let d := valDigits [d1, d2]
      if 1 ≤ m && m ≤ 12 && 1 ≤ d && d ≤ daysInMonth y m then some ⟨y, m, d⟩
      else none
    else none
  | _ => none

def pad2 (n : Nat) : List Char := if n < 10 then ['0', digitChar n] else natDigits n

def pad4 (n : Nat) : List Char :=
  if n < 10 then '0' :: '0' :: '0' :: [digitChar n]
  else if n < 100 then '0' :: '0' :: natDigits n
  else if n < 1000 then '0' :: natDigits n
  else natDigits n

/-- Go `Format("2006-01-02")` for the dates handled here (year in
0..9999, as produced by `parseDate`). -/
def dateStr (dt : GoDate) : List Char := pad4 dt.y ++ '-' :: pad2 dt.m ++ '-' :: pad2 dt.d

/-- Go `Format("15:04")` of a minute-of-day count. -/
def clockStr (tod : Nat) : List Char := pad2 (tod / 60) ++ ':' :: pad2 (tod % 60)

/-- Go `time.Parse("15:04", s)`: a 1-2 digit hour below 24, a colon,
exactly two minute digits below 60; returns minutes since midnight. -/
def parseClock (cs : List Char) : Option Nat :=
  let hm : Option (Nat × List Char) :=
    match cs with
    | a :: b :: rest =>
      if isDigitC a then
        if isDigitC b then some (valDigits [a, b], rest)
        else some (valDigits [a], b :: rest)
      else none
    | [a] => if isDigitC a then some (valDigits [a], []) else none
    | [] => none
  match hm with
  | none => none
  | some (h, rest) =>
    match rest with
    | ':' :: m1 :: m2 :: tail =>
      if isDigitC m1 && isDigitC m2 && tail = [] then
        let m := valDigits [m1, m2]
        if h ≤ 23 && m ≤ 59 then some (h * 60 + m) else none
      else none
    | _ => none

def nextDay (dt : GoDate) : GoDate :=
  if dt.d < daysInMonth dt.y dt.m then ⟨dt.y, dt.m, dt.d + 1⟩
  else if dt.m < 12 then ⟨dt.y, dt.m + 1, 1⟩
  else ⟨dt.y + 1, 1, 1⟩

def prevDay (dt : GoDate) : GoDate :=
  if 1 < dt.d then ⟨dt.y, dt.m, dt.d - 1⟩
  else if 1 < dt.m then ⟨dt.y, dt.m - 1, daysInMonth dt.y (dt.m - 1)⟩
  else ⟨dt.y - 1, 12, 31⟩

def addDaysN (dt : GoDate) : Nat → GoDate
  | 0 => dt
  | n + 1 => addDaysN (nextDay dt) n

def subDaysN (dt : GoDate) : Nat → GoDate
  | 0 => dt
  | n + 1 => subDaysN (prevDay dt) n

/-- Cumulative day count before month `m` in a non-leap year. -/
def daysBeforeMonth (m : Nat) : Nat :=
  [0, 0, 31, 59, 90, 120, 151, 181, 212, 243, 273, 304, 334].getD m 0

/-- Days since 0001-01-01 in the proleptic Gregorian calendar (the
linear day count underlying Go's `time.Time`). -/
def dayNumber (dt : GoDate) : Nat :=
  (dt.y - 1) * 365 + (dt.y - 1) / 4 - (dt.y - 1) / 100 + (dt.y - 1) / 400 +
    daysBeforeMonth dt.m + (if 2 < dt.m && isLeap dt.y then 1 else 0) + (dt.d - 1)

/-- Go `Time.Weekday()`: 0 = Sunday … 6 = Saturday.  Anchored at
0001-01-01, a Monday in Go's calendar. -/
def weekday (dt : GoDate) : Nat := (dayNumber dt + 1) % 7

/-- Calendar sanity: 2024-01-15 was a Monday, 2026-10-11 a Sunday. -/
theorem weekday_anchor_check : weekday ⟨2024, 1, 15⟩ = 1 ∧ weekday ⟨2026, 10, 11⟩ = 0 := by
  decide

/-! ### Task and time-entry records -/

/-- One parsed time-log session (`TimeEntry` in the Go code).  Start
and end times are minutes since midnight on `date`; they are combined
with `date` exactly as the Go code combines them via `time.Date`. -/
structure TimeEntry where
  date : GoDate
  startTod : Nat
  endTod : Nat
  duration : Int
  description : String
deriving DecidableEq, Repr

/-- One extracted checkbox task (`TaskInfo` in the Go code). -/
structure TaskInfo where
  text : String
  line : Nat
  indent : Nat
  dueDate : Option GoDate
  tags : List String
  filePath : String
  estimate : String
  timeEntries : List TimeEntry
  totalTime : Int
  remaining : String
deriving DecidableEq, Repr

/-! ### Line matchers of `extractTasks`

Each matcher is the direct reading of one of the compiled regexps in
`extractTasks`; all of them are anchored or scanned exactly as RE2
matches them (leftmost match, greedy character classes). -/

/-- The task pattern `^(\s*)-\s*\[\s*\]\s*(.*)$`: note the bracket pair
may contain only `\s` characters.  Returns (indent width, rest). -/
def matchTaskLine (cs : List Char) : Option (Nat × List Char) :=
  let ws := cs.takeWhile isRegexSpace
  match cs.dropWhile isRegexSpace with
  | '-' :: r2 =>
    match r2.dropWhile isRegexSpace with
    | '[' :: r4 =>
      match r4.dropWhile isRegexSpace with
      | ']' :: r6 => some (ws.length, r6.dropWhile isRegexSpace)
      | _ => none
    | _ => none
  | _ => none

/-- Try `due:(\d{4}-\d{2}-\d{2})` at the head; returns the capture.
The whole match is always 14 characters long. -/
def tryDue (cs : List Char) : Option (List Char) :=
  match cs with
  | 'd' :: 'u' :: 'e' :: ':' :: y1 :: y2 :: y3 :: y4 :: '-' :: m1 :: m2 :: '-' :: d1 :: d2 :: _ =>
    if [y1, y2, y3, y4, m1, m2, d1, d2].all isDigitC then
      some [y1, y2, y3, y4, '-', m1, m2, '-', d1, d2]
    else none
  | _ => none

/-- First match of the due-date pattern (`FindStringSubmatch`). -/
def findDue : List Char → Option (List Char)
  | [] => none
  | c :: cs =>
    match tryDue (c :: cs) with
    | some cap => some cap
    | none => findDue cs

/-- Remove every match of the due-date pattern (`ReplaceAllString` with
the empty replacement; matches are leftmost and non-overlapping).  The
fuel argument of the worker only needs to exceed the input length;
every step consumes at least one character. -/
def stripDueF : Nat → List Char → List Char
  | 0, l => l
  | _ + 1, [] => []
  | fuel + 1, c :: cs =>
    match tryDue (c :: cs) with
    | some _ => stripDueF fuel (cs.drop 13)
    | none => c :: stripDueF fuel cs

def stripDue (l : List Char) : List Char := stripDueF l.length l

/-- Try the estimate pattern at the head.  The Go source compiles the
raw-string pattern `est:([^\\s]+)`, whose character class excludes the
backslash and the letter s — not white space.  Returns (match length,
capture). -/
def tryEst (cs : List Char) : Option (Nat × List Char) :=
  match cs with
  | 'e' :: 's' :: 't' :: ':' :: rest =>
    let cap := rest.takeWhile (fun c => !(c = 's' || c = '\\'))
    if cap = [] then none else some (4 + cap.length, cap)
  | _ => none

/-- First match of the estimate pattern. -/
def findEst : List Char → Option (List Char)
  | [] => none
  | c :: cs =>
    match tryEst (c :: cs) with
    | some r => some r.2
    | none => findEst cs

/-- Remove every match of the estimate pattern (fuel as in `stripDueF`). -/
def stripEstF : Nat → List Char → List Char
  | 0, l => l
  | _ + 1, [] => []
  | fuel + 1, c :: cs =>
    match tryEst (c :: cs) with
    | some r => stripEstF fuel (cs.drop (r.1 - 1))
    | none => c :: stripEstF fuel cs

def stripEst (l : List Char) : List Char := stripEstF l.length l

/-- Try the tag pattern `#(\w+)` at the head; returns (match length,
capture without the hash). -/
def tryTag (cs : List Char) : Option (Nat × List Char) :=
  match cs with
  | '#' :: rest =>
    let cap := rest.takeWhile isWordC
    if cap = [] then none else some (1 + cap.length, cap)
  | _ => none

/-- All matches of the tag pattern (`FindAllStringSubmatch`), each
capture re-prefixed with `#` as the Go code does (fuel as in
`stripDueF`). -/
def findAllTagsF : Nat → List Char → List String
  | 0, _ => []
  | _ + 1, [] => []
  | fuel + 1, c :: cs =>
    match tryTag (c :: cs) with
    | some r => (⟨'#' :: r.2⟩ : String) :: findAllTagsF fuel (cs.drop (r.1 - 1))
    | none => findAllTagsF fuel cs

def findAllTags (l : List Char) : List String := findAllTagsF l.length l

/-- The pattern `^\s*Time log:\s*$`. -/
def isTimeLogLine (cs : List Char) : Bool :=
  let r := cs.dropWhile isRegexSpace
  "Time log:".data.isPrefixOf r && (r.drop 9).all isRegexSpace

/-- The pattern `^\s*•` (a time-entry bullet). -/
def isBulletLine (cs : List Char) : Bool :=
  match cs.dropWhile isRegexSpace with
  | '•' :: _ => true
  | _ => false

/-- The pattern `^\s*Remaining:\s*(.+)$`, returning the capture after
the `TrimSpace` the caller applies.  (When everything after the colon
is white space, the regexp still matches — `\s*` backtracks one step to
feed `(.+)` — and the trimmed capture is empty.) -/
def matchRemaining (cs : List Char) : Option (List Char) :=
  let r := cs.dropWhile isRegexSpace
  if "Remaining:".data.isPrefixOf r then
    let rest := r.drop 10
    if rest = [] then none else some (trimL rest)
  else none

/-- The pattern `^\s*Total:\s*(.+)$`, returning the trimmed capture. -/
def matchTotal (cs : List Char) : Option (List Char) :=
  let r := cs.dropWhile isRegexSpace
  if "Total:".data.isPrefixOf r then
    let rest := r.drop 6
    if rest = [] then none else some (trimL rest)
  else none

/-! ### parseTimeEntry -/

/-- Split at the first occurrence of `sep` (Go `strings.SplitN _ sep 2`
when it finds a separator; `none` when there is none). -/
def splitOnceSub (sep : List Char) : List Char → Option (List Char × List Char)
  | [] => if sep.isPrefixOf ([] : List Char) then some ([], []) else none
  | c :: t =>
    if sep.isPrefixOf (c :: t) then some ([], (c :: t).drop sep.length)
    else
      match splitOnceSub sep t with
      | some ab => some (c :: ab.1, ab.2)
      | none => none

/-- Try `\(([^)]+)\)` at the head; returns (match length, capture). -/
def tryParen (cs : List Char) : Option (Nat × List Char) :=
  match cs with
  | '(' :: rest =>
    let cap := rest.takeWhile (fun c => c ≠ ')')
    if cap = [] then none
    else
      match rest.drop cap.length with
      | ')' :: _ => some (cap.length + 2, cap)
      | _ => none
  | _ => none

/-- First match of the parenthesised-duration pattern. -/
def findParen : List Char → Option (List Char)
  | [] => none
  | c :: cs =>
    match tryParen (c :: cs) with
    | some r => some r.2
    | none => findParen cs

/-- Remove every match of the parenthesised-duration pattern (fuel as
in `stripDueF`). -/
def stripParensF : Nat → List Char → List Char
  | 0, l => l
  | _ + 1, [] => []
  | fuel + 1, c :: cs =>
    match tryParen (c :: cs) with
    | some r => stripParensF fuel (cs.drop (r.1 - 1))
    | none => c :: stripParensF fuel cs

def stripParens (l : List Char) : List Char := stripParensF l.length l

/-- `parseTimeEntry` of the Go code, step for step.  Note the first
line trims the bullet only when it is the very first character — an
indented `  • …` line keeps its bullet, which then makes the
split-on-spaces step see three fields and fail. -/
def parseTimeEntry (line : String) : Except String TimeEntry :=
  let l0 := line.data
  let l1 := trimL (if "•".data.isPrefixOf l0 then l0.drop 1 else l0)
  let l2 := trimL l1
  match splitOnceSub " - ".data l2 with
  | none => .error "invalid time entry format"
  | some (timePart0, description) =>
    match findParen timePart0 with
    | none => .error "duration not found"
    | some cap =>
      match parseDuration ⟨cap⟩ with
      | .error _ => .error "invalid duration"
      | .ok dur =>
        let tp := trimL (stripParens timePart0)
        match splitChar ' ' tp with
        | [dateToken, timeRange] =>
          match parseDate dateToken with
          | none => .error "invalid date"
          | some date =>
            match splitChar '-' timeRange with
            | [t1, t2] =>
              match parseClock t1 with
              | none => .error "invalid start time"
              | some st =>
                match parseClock t2 with
                | none => .error "invalid end time"
                | some en => .ok ⟨date, st, en, dur, ⟨description⟩⟩
            | _ => .error "invalid time range"
        | _ => .error "invalid date-time format"

/-! ### extractTasks -/

/-- Build the `TaskInfo` for a freshly seen task line, mirroring the
order of operations in `extractTasks`: the due date is searched in the
trimmed body and stripped from the running text; the estimate is
searched in the *original* trimmed body but stripped from the running
text; tags are collected from the original trimmed body. -/
def mkTask (body : List Char) (lineNum indent : Nat) (fp : String) : TaskInfo :=
  let taskText := trimL body
  let step1 : Option GoDate × List Char :=
    match findDue taskText with
    | some cap => (parseDate cap, stripDue taskText)
    | none => (none, taskText)
  let step2 : List Char × List Char :=
    match findEst taskText with
    | some cap => (cap, stripEst step1.2)
    | none => ([], step1.2)
  { text := ⟨trimL step2.2⟩
    line := lineNum
    indent := indent
    dueDate := step1.1
    tags := findAllTags taskText
    filePath := fp
    estimate := ⟨step2.1⟩
    timeEntries := []
    totalTime := 0
    remaining := "" }

/-- The scanner loop of `extractTasks`: one forward pass with the
current task and the in-time-log flag as state. -/
def extractLoop (fp : String) : List String → Nat → Option TaskInfo → Bool → List TaskInfo
  | [], _, cur, _ => cur.toList
  | l :: rest, n, cur, inTL =>
    let cs := l.data
    match matchTaskLine cs with
    | some im => cur.toList ++ extractLoop fp rest (n + 1) (some (mkTask im.2 n im.1 fp)) false
    | none =>
      match cur with
      | none => extractLoop fp rest (n + 1) none inTL
      | some t =>
        if isTimeLogLine cs then extractLoop fp rest (n + 1) (some t) true
        else if inTL && isBulletLine cs then
          match parseTimeEntry l with
          | .ok e =>
            extractLoop fp rest (n + 1)
              (some { t with timeEntries := t.timeEntries ++ [e],
                             totalTime := t.totalTime + e.duration }) inTL
          | .error _ => extractLoop fp rest (n + 1) (some t) inTL
        else
          match matchRemaining cs with
          | some r => extractLoop fp rest (n + 1) (some { t with remaining := ⟨r⟩ }) false
          | none =>
            match matchTotal cs with
            | some txt =>
              let t' :=
                match parseDuration ⟨txt⟩ with
                | .ok d => { t with totalTime := d }
                | .error _ => t
              extractLoop fp rest (n + 1) (some t') false
            | none =>
              let inTL' :=
                if !("  ".data.isPrefixOf cs) && trimL cs ≠ [] then false else inTL
              extractLoop fp rest (n + 1) (some t) inTL'

/-- `extractTasks` of the Go code, with the file's contents passed as
its list of lines (`bufio.Scanner` line splitting). -/
def extractTasksLines (lines : List String) (fp : String) : List TaskInfo :=
  extractLoop fp lines 1 none false

/-! ### Priority detection and task filtering -/

/-- `detectPriority`: case-insensitive keyword scan, high-priority
keywords first, then medium; first hit wins. -/
def detectPriority (taskText : String) : String :=
  let tl := toLowerL taskText.data
  if ["urgent", "asap", "critical", "important", "!!!"].any
      (fun k => containsSub tl k.data) then "🔴"
  else if ["!!", "soon", "priority"].any (fun k => containsSub tl k.data) then "🟡"
  else "⚪"

/-- `getPriorityLevel`: emoji to level name. -/
def getPriorityLevel (p : String) : String :=
  if p = "🔴" then "high" else if p = "🟡" then "medium" else "low"

/-- The filter fields consumed by `filterTasks` / `matchesFilters`
(the remaining `TaskFilters` fields of the Go struct — SortBy, Focus,
All, Summary, Full — are read only by the display layer). -/
structure TaskFilters where
  tags : List String
  priority : String
  overdue : Bool
  today : Bool
  filePattern : String
deriving Repr

/-- The date clause of `matchesFilters`: focus mode ORs overdue and
due-today when both flags are set, otherwise each flag is an
independent AND-clause.  Dates are compared through their
`"2006-01-02"` renderings with Go string comparison, as the source
does. -/
def dueClause (task : TaskInfo) (f : TaskFilters) (now : GoDate) : Bool :=
  if f.overdue && f.today then
    match task.dueDate with
    | none => false
    | some d => strLtB (dateStr d) (dateStr now) || dateStr d = dateStr now
  else
    (if f.overdue then
      match task.dueDate with
      | none => false
      | some d => strLtB (dateStr d) (dateStr now)
     else true) &&
    (if f.today then
      match task.dueDate with
      | none => false
      | some d => dateStr d = dateStr now
     else true)

/-- `matchesFilters`: every specified criterion must pass (the early
returns of the Go code form this conjunction). -/
def matchesFilters (task : TaskInfo) (f : TaskFilters) (now : GoDate) : Bool :=
  (f.tags.isEmpty || f.tags.any (fun ft => task.tags.any (fun tt => equalFold tt ft))) &&
  (f.priority = "" || equalFold (getPriorityLevel (detectPriority task.text)) f.priority) &&
  dueClause task f now &&
  (f.filePattern = "" ||
    containsSub (toLowerL task.filePath.data) (toLowerL f.filePattern.data))

/-- `filterTasks`: identity when no criterion is specified, otherwise
keep the tasks passing `matchesFilters`.  (`now` is `time.Now()` of the
Go code, passed explicitly.) -/
def filterTasks (tasks : List TaskInfo) (f : TaskFilters) (now : GoDate) : List TaskInfo :=
  if f.tags.length = 0 && f.priority = "" && !f.overdue && !f.today && f.filePattern = "" then
    tasks
  else tasks.filter (fun t => matchesFilters t f now)

/-! ### Timer state machine

`TimerState` as persisted in the JSON sidecar.  Instants are int64
nanosecond timestamps (`Int`); `time.Since t = now - t`.  The sidecar
file itself is modelled by an `Option TimerState`: `none` is the absent
file (`loadTimerState` fails), `some s` its parsed contents. -/

structure TimerState where
  isActive : Bool
  taskText : String
  filePath : String
  taskLine : Nat
  startTime : Int
  isPaused : Bool
  pausedTime : Int
  totalPaused : Int
deriving DecidableEq, Repr

/-- The state written by `startTimer` once the task is resolved:
active, started now, with the Go zero values for the pause fields. -/
def startTimerState (task : TaskInfo) (now : Int) : TimerState :=
  { isActive := true, taskText := task.text, filePath := task.filePath,
    taskLine := task.line, startTime := now, isPaused := false,
    pausedTime := 0, totalPaused := 0 }

/-- `pauseTimer`: fails when idle or already paused, else records the
pause instant. -/
def pauseTimer (st : Option TimerState) (now : Int) : Except String TimerState :=
  match st with
  | none => .error "no active timer found"
  | some s =>
    if !s.isActive then .error "no active timer found"
    else if s.isPaused then .error "timer is already paused"
    else .ok { s with isPaused := true, pausedTime := now }

/-- `resumeTimer` on a persisted state: when no active state exists the
Go code delegates to `startTimer` (requiring a task text) — that branch
is the separate `startTimerState` above; here is the resume-proper
path.  Fails when running (not paused); else folds the closed pause
interval into `totalPaused`. -/
def resumeTimer (st : Option TimerState) (now : Int) : Except String TimerState :=
  match st with
  | none => .error "delegates to startTimer"
  | some s =>
    if !s.isActive then .error "delegates to startTimer"
    else if !s.isPaused then .error "timer is not paused"
    else .ok { s with totalPaused := s.totalPaused + (now - s.pausedTime),
                      isPaused := false, pausedTime := 0 }

/-- `stopTimer`.  `writerOk` abstracts the success of the time-log
writer (`addTimeEntry`).  Returns the command result — `.ok elapsed`
is the elapsed duration that was passed to the writer and logged — and
the persisted state after the call: the Go code *returns early* on a
writer failure, reaching `clearTimerState` only on success. -/
def stopTimer (st : Option TimerState) (now : Int) (writerOk : Bool) :
    Except String Int × Option TimerState :=
  match st with
  | none => (.error "no active timer found", none)
  | some s =>
    if !s.isActive then (.error "no active timer found", some s)
    else
      let elapsed :=
        (now - s.startTime) - s.totalPaused - (if s.isPaused then now - s.pausedTime else 0)
      if writerOk then (.ok elapsed, none)
      else (.error "failed to add time entry", some s)

/-! ### Time-log writer (`addTimeEntry`) -/

/-- `formatTimeEntry`: the markdown rendering of one session line. -/
def formatTimeEntry (e : TimeEntry) : String :=
  ⟨"  • ".data ++ dateStr e.date ++ ' ' :: clockStr e.startTod ++ '-' :: clockStr e.endTod ++
    " (".data ++ (formatDuration e.duration).data ++ ") - ".data ++ e.description.data⟩

/-- The inner scan of `addTimeEntry`: from line `j` (0-based), while
lines keep the two-space indent, advance the insertion point past
bullet lines and stop at a `Remaining:`/`Total:` line.  The fuel is
`lines.length`, enough for the strictly increasing `j`. -/
def scanInner (lines : List String) : Nat → Nat → Nat → Nat
  | 0, _, ins => ins
  | fuel + 1, j, ins =>
    if j < lines.length && "  ".data.isPrefixOf (lines.getD j "").data then
      let lj := (lines.getD j "").data
      if containsSub lj "Remaining:".data || containsSub lj "Total:".data then j
      else scanInner lines fuel (j + 1) (if "  •".data.isPrefixOf lj then j + 1 else ins)
    else ins

/-- The outer scan of `addTimeEntry`: look for a `Time log:` marker in
the 10 lines after the task line (fuel 10 realises the
`i < taskLine+10` bound), stopping early at non-indented content.
Returns (marker found, insertion index). -/
def scanOuter (lines : List String) (taskLine : Nat) : Nat → Nat → Bool × Nat
  | _, 0 => (false, taskLine)
  | i, fuel + 1 =>
    if i < lines.length then
      let li := (lines.getD i "").data
      if containsSub li "Time log:".data then
        (true, scanInner lines lines.length (i + 1) (i + 1))
      else if !("  ".data.isPrefixOf li) && trimL li ≠ [] && taskLine < i then
        (false, taskLine)
      else scanOuter lines taskLine (i + 1) fuel
    else (false, taskLine)

/-- `addTimeEntry`, on the file's lines.  The Go function builds the
`TimeEntry` from the timer snapshot (start time, start+elapsed, the
fixed description "Work session") before this pure part; the entry is
passed here already built.  Inserting `lines[:i] ++ new ++ lines[i:]`
is exactly the slice-append sequence of the source. -/
def addTimeEntryLines (lines : List String) (taskLine : Nat) (entry : TimeEntry) :
    Except String (List String) :=
  if lines.length < taskLine then .error "task line not found in file"
  else
    let found := scanOuter lines taskLine taskLine 10
    let e := formatTimeEntry entry
    if found.1 then .ok (lines.take found.2 ++ e :: lines.drop found.2)
    else .ok (lines.take found.2 ++ "  Time log:" :: e :: lines.drop found.2)

/-! ### Time report aggregator (`collectTimeData`) -/

structure TaskTimeData where
  task : TaskInfo
  entries : List TimeEntry
  totalTime : Int
deriving DecidableEq, Repr

structure TimeReportData where
  tasks : List TaskTimeData
  totalTime : Int
  period : String
  startDate : GoDate
  endDate : GoDate
deriving DecidableEq, Repr

/-- The window filter of `collectTimeData`:
`(entry.Date.After(start) || entry.Date.Equal(start)) && entry.Date.Before(end)`. -/
def entryInWindow (st en : GoDate) (e : TimeEntry) : Bool :=
  (dLtB st e.date || e.date = st) && dLtB e.date en

/-- Per-task aggregation: tasks without time entries are skipped, the
entries are filtered to the window, and tasks with no surviving entry
are dropped; otherwise the filtered entries and their total survive. -/
def taskWindowData (st en : GoDate) (t : TaskInfo) : Option TaskTimeData :=
  if t.timeEntries.isEmpty then none
  else
    let fe := t.timeEntries.filter (entryInWindow st en)
    if fe.isEmpty then none
    else some ⟨t, fe, (fe.map TimeEntry.duration).sum⟩

/-- The period window (`switch strings.ToLower(period)`), computed from
the civil date of `time.Now()`.  All bounds are midnights, so the
window is the pair of its bounding dates. -/
def periodWindow (p : List Char) (now : GoDate) : Option (GoDate × GoDate) :=
  if p = "today".data then some (now, addDaysN now 1)
  else if p = "week".data then
    let wd := weekday now
    let w := if wd = 0 then 7 else wd
    let st := subDaysN now (w - 1)
    some (st, addDaysN st 7)
  else if p = "month".data then
    some (⟨now.y, now.m, 1⟩,
          if now.m = 12 then ⟨now.y + 1, 1, 1⟩ else ⟨now.y, now.m + 1, 1⟩)
  else none

/-- Descending order on per-task totals, the comparison given to the
final sort (`report.Tasks[i].TotalTime > report.Tasks[j].TotalTime`).
Go's `sort.Slice` is unstable and leaves the order of equal totals
unspecified; the insertion sort below realises one admissible
outcome. -/
def byTotalDesc (a b : TaskTimeData) : Prop := b.totalTime ≤ a.totalTime

instance : DecidableRel byTotalDesc := fun a b => Int.decLe b.totalTime a.totalTime

instance : IsTotal TaskTimeData byTotalDesc := ⟨fun a b => Int.le_total b.totalTime a.totalTime⟩

instance : IsTrans TaskTimeData byTotalDesc := ⟨fun _ _ _ h1 h2 => le_trans h2 h1⟩

/-- `collectTimeData`: resolve the period window, aggregate every task
(the directory walk that produces `tasks` is I/O and passed as input),
sum the per-task totals, and sort descending by total. -/
def collectTimeData (period : String) (now : GoDate) (tasks : List TaskInfo) :
    Except String TimeReportData :=
  match periodWindow (toLowerL period.data) now with
  | none => .error ("invalid period: " ++ period)
  | some w =>
    let col := tasks.filterMap (taskWindowData w.1 w.2)
    .ok ⟨List.insertionSort byTotalDesc col, (col.map TaskTimeData.totalTime).sum,
         period, w.1, w.2⟩

/-! ### Spec-side predicates

These definitions follow the wording of the specification (not the
code); the theorems below relate them to the embedded functions. -/

/-- Spec: a task is overdue on `now` when its due date, rendered as
`YYYY-MM-DD`, is strictly before today's rendering (string order on
zero-padded dates is calendar order). -/
def isOverdueOn (now : GoDate) (t : TaskInfo) : Bool :=
  match t.dueDate with
  | some d => strLtB (dateStr d) (dateStr now)
  | none => false

/-- Spec: a task is due today when its due date renders equal to
today. -/
def isDueTodayOn (now : GoDate) (t : TaskInfo) : Bool :=
  match t.dueDate with
  | some d => dateStr d = dateStr now
  | none => false

/-- Spec: a time-entry date lies in the half-open window `[start, end)`
(inclusive start, exclusive end). -/
def inWindow (st en : GoDate) (e : TimeEntry) : Prop :=
  (dLtB st e.date = true ∨ e.date = st) ∧ dLtB e.date en = true

/-! ### Sample data for witnesses -/

def taskOverdue : TaskInfo :=
  { text := "pay invoice", line := 1, indent := 0, dueDate := some ⟨2026, 10, 1⟩,
    tags := [], filePath := "daily/a.md", estimate := "", timeEntries := [],
    totalTime := 0, remaining := "" }

def taskToday : TaskInfo :=
  { text := "send report", line := 2, indent := 0, dueDate := some ⟨2026, 10, 11⟩,
    tags := [], filePath := "daily/a.md", estimate := "", timeEntries := [],
    totalTime := 0, remaining := "" }

def taskNoDue : TaskInfo :=
  { text := "read book", line := 3, indent := 0, dueDate := none,
    tags := [], filePath := "daily/a.md", estimate := "", timeEntries := [],
    totalTime := 0, remaining := "" }

def sampleTimer : TimerState :=
  { isActive := true, taskText := "pay invoice", filePath := "daily/a.md",
    taskLine := 1, startTime := 0, isPaused := false, pausedTime := 0, totalPaused := 0 }

def sampleEntry : TimeEntry :=
  ⟨⟨2024, 1, 15⟩, 570, 645, 4500000000000, "Work session"⟩

def c1Line : String := "- [ ] Fix auth bug due:2099-01-01 est:2h #urgent"

def taskTimed : TaskInfo :=
  { text := "build feature", line := 4, indent := 0, dueDate := none,
    tags := [], filePath := "projects/p.md", estimate := "",
    timeEntries := [⟨⟨2026, 10, 10⟩, 540, 585, 2700000000000, "warmup"⟩,
                    ⟨⟨2026, 10, 11⟩, 540, 600, 3600000000000, "main work"⟩],
    totalTime := 6300000000000, remaining := "" }

def reportSample : TimeReportData :=
  { tasks := [⟨taskTimed, [⟨⟨2026, 10, 11⟩, 540, 600, 3600000000000, "main work"⟩],
               3600000000000⟩],
    totalTime := 3600000000000, period := "today",
    startDate := ⟨2026, 10, 11⟩, endDate := ⟨2026, 10, 12⟩ }

/-! ### Spec-side duration shapes (C6, C7)

The specification's three accepted shapes, stated as the spec words
them: the string is `<H>h<M>m`, `<H>h` or `<M>m`, with `Atoi`-numeric
hour/minute components. -/

/-- Spec shape `<H>h<M>m`. -/
def shapeHM (t : List Char) : Prop :=
  ∃ a b, t = a ++ 'h' :: (b ++ ['m']) ∧ (atoi a).isSome ∧ (atoi b).isSome

/-- Spec shape `<H>h`. -/
def shapeH (t : List Char) : Prop := ∃ a, t = a ++ ['h'] ∧ (atoi a).isSome

/-- Spec shape `<M>m`. -/
def shapeM (t : List Char) : Prop := ∃ b, t = b ++ ['m'] ∧ (atoi b).isSome

/-- One of the three supported duration shapes. -/
def durShape (t : List Char) : Prop := shapeHM t ∨ shapeH t ∨ shapeM t

/-- Digit-list folding with an explicit accumulator (the loop of
`leadingInt`); `valDigits l = valFrom 0 l`. -/
def valFrom (x : Nat) (l : List Char) : Nat :=
  l.foldl (fun n c => n * 10 + (c.toNat - 48)) x

/-! ### Claims -/

/-- C10: `filterTasks` with a completely empty criteria object (no
tags, no priority, overdue and today both false, no file pattern)
returns the input task list unchanged, element for element and in the
same order. -/
theorem claim_C10 (tasks : List TaskInfo) (now : GoDate) :
    filterTasks tasks ⟨[], "", false, false, ""⟩ now = tasks := rfl

/-- C5: with both `overdue` and `today` requested and no further
criteria, `filterTasks` keeps exactly the tasks that are overdue OR due
today — the union, not the intersection — and every kept task has a due
date. -/
theorem claim_C5 (tasks : List TaskInfo) (f : TaskFilters) (now : GoDate)
    (hov : f.overdue = true) (hto : f.today = true) (htags : f.tags = [])
    (hpri : f.priority = "") (hpat : f.filePattern = "") :
    filterTasks tasks f now =
      tasks.filter (fun t => isOverdueOn now t || isDueTodayOn now t) ∧
    ∀ t ∈ filterTasks tasks f now, t.dueDate ≠ none := by
  obtain ⟨tg, pr, ov, td, fp⟩ := f
  simp only at hov hto htags hpri hpat
  subst hov hto htags hpri hpat
  have hmatch : ∀ t : TaskInfo,
      matchesFilters t ⟨[], "", true, true, ""⟩ now =
        (isOverdueOn now t || isDueTodayOn now t) := by
    intro t
    simp only [matchesFilters, dueClause, isOverdueOn, isDueTodayOn]
    cases t.dueDate <;> simp
  have hfil : filterTasks tasks ⟨[], "", true, true, ""⟩ now =
      tasks.filter (fun t => isOverdueOn now t || isDueTodayOn now t) := by
    simp only [filterTasks]
    rw [if_neg (by simp)]
    exact List.filter_congr (fun t _ => hmatch t)
  refine ⟨hfil, ?_⟩
  intro t ht
  rw [hfil] at ht
  have := (List.mem_filter.mp ht).2
  cases hd : t.dueDate with
  | none => rw [isOverdueOn, isDueTodayOn, hd] at this; simp at this
  | some d => simp [hd]

/-- C5 witness: overdue and due-today tasks are kept, the task without
a due date is dropped. -/
theorem claim_C5_witness :
    filterTasks [taskOverdue, taskNoDue, taskToday] ⟨[], "", true, true, ""⟩ ⟨2026, 10, 11⟩ =
      [taskOverdue, taskToday] := by
  have h := (claim_C5 [taskOverdue, taskNoDue, taskToday] ⟨[], "", true, true, ""⟩
    ⟨2026, 10, 11⟩ rfl rfl rfl rfl rfl).1
  rw [h]; decide

/-- C3: across a start → pause → resume → stop run, the elapsed
duration handed to the time-log writer is stop-time − start-time −
the accumulated pause (here `t2 − t1`); and stopping while still
paused additionally subtracts the open pause interval `t3 − t1`. -/
theorem claim_C3 (task : TaskInfo) (t0 t1 t2 t3 : Int) :
    ∃ s1 s2,
      pauseTimer (some (startTimerState task t0)) t1 = .ok s1 ∧
      resumeTimer (some s1) t2 = .ok s2 ∧
      (stopTimer (some s2) t3 true).1 = .ok ((t3 - t0) - (t2 - t1)) ∧
      (stopTimer (some s2) t3 true).2 = none ∧
      (stopTimer (some s1) t3 true).1 = .ok ((t3 - t0) - (t3 - t1)) := by
  refine ⟨_, _, rfl, rfl, ?_, rfl, ?_⟩
  · simp only [stopTimer, startTimerState, pauseTimer, resumeTimer]
    norm_num
  · simp only [stopTimer, startTimerState, pauseTimer]
    norm_num

/-- C4 counterexample: with an active timer and a failing time-log
writer, `stopTimer` returns the writer's error without deleting the
persisted state — the system is not idle after the call. -/
theorem claim_C4_counterexample :
    (stopTimer (some sampleTimer) 3600000000000 false).2 = some sampleTimer ∧
    (stopTimer (some sampleTimer) 3600000000000 false).1 =
      .error "failed to add time entry" := by decide

/-- C4 amended: with an active timer, the persisted state is deleted
exactly when the time-log writer succeeds; on writer failure `stopTimer`
returns early and the state survives. -/
theorem claim_C4 (s : TimerState) (now : Int) (w : Bool) (h : s.isActive = true) :
    (stopTimer (some s) now w).2 = if w then none else some s := by
  simp only [stopTimer, h]
  cases w <;> simp

/-- C4 witness: a successful stop of the sample timer deletes the
state. -/
theorem claim_C4_witness : (stopTimer (some sampleTimer) 60 true).2 = none := by
  have h := claim_C4 sampleTimer 60 true rfl
  simpa using h

/-- C2 counterexample: a checked task line is not extracted at all,
while the same line unchecked is — checked tasks are *not* included
like unchecked ones. -/
theorem claim_C2_counterexample :
    extractTasksLines ["- [x] Write the report"] "f.md" = [] ∧
    extractTasksLines ["- [X] Write the report"] "f.md" = [] ∧
    extractTasksLines ["- [ ] Write the report"] "f.md" ≠ [] := by decide

/-- C2 amended: the extractor's task pattern `^(\s*)-\s*\[\s*\]\s*(.*)$`
accepts only a bracket pair containing white space; for every line body,
checked `- [x]` / `- [X]` lines match nothing and extract no task, while
the unchecked form is recognized. -/
theorem claim_C2 (s : String) (fp : String) :
    matchTaskLine ("- [x] " ++ s).data = none ∧
    matchTaskLine ("- [X] " ++ s).data = none ∧
    extractTasksLines ["- [x] " ++ s] fp = [] ∧
    extractTasksLines ["- [X] " ++ s] fp = [] ∧
    matchTaskLine ("- [ ] " ++ s).data = some (0, s.data.dropWhile isRegexSpace) := by
  have hx : matchTaskLine ('-' :: ' ' :: '[' :: 'x' :: ']' :: ' ' :: s.data) = none := by
    simp [matchTaskLine, isRegexSpace, List.dropWhile_cons, List.takeWhile_cons]
  have hX : matchTaskLine ('-' :: ' ' :: '[' :: 'X' :: ']' :: ' ' :: s.data) = none := by
    simp [matchTaskLine, isRegexSpace, List.dropWhile_cons, List.takeWhile_cons]
  refine ⟨?_, ?_, ?_, ?_, ?_⟩
  · rw [String.data_append]; exact hx
  · rw [String.data_append]; exact hX
  · simp [extractTasksLines, extractLoop, String.data_append, hx]
  · simp [extractTasksLines, extractLoop, String.data_append, hX]
  · rw [String.data_append]
    simp [matchTaskLine, isRegexSpace, List.dropWhile_cons, List.takeWhile_cons]

/-- C1 counterexample: on the scenario line the extracted task's text,
estimate and priority all differ from the claim — the raw-string
character class `[^\\s]` of the estimate pattern swallows the tag and
the priority keyword. -/
theorem claim_C1_counterexample :
    (extractTasksLines [c1Line] "notes.md").map TaskInfo.text ≠ ["Fix auth bug #urgent"] ∧
    (extractTasksLines [c1Line] "notes.md").map TaskInfo.estimate ≠ ["2h"] ∧
    (extractTasksLines [c1Line] "notes.md").map
      (fun t => getPriorityLevel (detectPriority t.text)) ≠ ["high"] := by decide

/-- C1 amended: extraction of the scenario line yields exactly one
task with text "Fix auth bug" (tag stripped together with the
estimate match), dueDate 2099-01-01, estimate "2h #urgent", tags
["#urgent"], and detected priority low. -/
theorem claim_C1 :
    extractTasksLines [c1Line] "notes.md" =
      [{ text := "Fix auth bug", line := 1, indent := 0, dueDate := some ⟨2099, 1, 1⟩,
         tags := ["#urgent"], filePath := "notes.md", estimate := "2h #urgent",
         timeEntries := [], totalTime := 0, remaining := "" }] ∧
    getPriorityLevel (detectPriority "Fix auth bug") = "low" := by decide

/-- C8: `addTimeEntry` only inserts lines — the result is the original
lines with either the formatted entry alone or a `  Time log:` marker
plus the entry spliced in at one position, so every pre-existing line
survives unchanged and in order; and when the task line number exceeds
the line count it fails without producing any output lines. -/
theorem claim_C8 (lines : List String) (taskLine : Nat) (entry : TimeEntry) :
    (taskLine ≤ lines.length →
      ∃ i, addTimeEntryLines lines taskLine entry =
            .ok (lines.take i ++ formatTimeEntry entry :: lines.drop i) ∨
          addTimeEntryLines lines taskLine entry =
            .ok (lines.take i ++ "  Time log:" :: formatTimeEntry entry :: lines.drop i)) ∧
    (lines.length < taskLine →
      addTimeEntryLines lines taskLine entry = .error "task line not found in file") := by
  constructor
  · intro h
    refine ⟨(scanOuter lines taskLine taskLine 10).2, ?_⟩
    rw [addTimeEntryLines, if_neg (by omega)]
    cases hf : (scanOuter lines taskLine taskLine 10).1
    · right; simp [hf]
    · left; simp [hf]
  · intro h
    rw [addTimeEntryLines, if_pos h]

/-- C8 witness: inserting into a two-line file creates the marker and
the entry between the task line and the rest. -/
theorem claim_C8_witness :
    ∃ i, addTimeEntryLines ["- [ ] pay invoice", "note"] 1 sampleEntry =
          .ok ((["- [ ] pay invoice", "note"].take i) ++ formatTimeEntry sampleEntry ::
            (["- [ ] pay invoice", "note"].drop i)) ∨
        addTimeEntryLines ["- [ ] pay invoice", "note"] 1 sampleEntry =
          .ok ((["- [ ] pay invoice", "note"].take i) ++ "  Time log:" ::
            formatTimeEntry sampleEntry :: (["- [ ] pay invoice", "note"].drop i)) :=
  (claim_C8 ["- [ ] pay invoice", "note"] 1 sampleEntry).1 (by decide)

/-- C9: for a recognized period (case-insensitive), the report keeps a
time entry exactly when its date lies in the half-open window
`[startDate, endDate)`; tasks with no surviving entry are dropped
entirely; each surviving task's total sums its surviving entries; the
report total sums the per-task totals; tasks come out sorted descending
by total; and any unrecognized period fails with an error. -/
theorem claim_C9 (period : String) (now : GoDate) (tasks : List TaskInfo) :
    (∀ r, collectTimeData period now tasks = .ok r →
      (∀ td ∈ r.tasks,
        td.entries = td.task.timeEntries.filter (entryInWindow r.startDate r.endDate) ∧
        (∀ e, e ∈ td.entries ↔ e ∈ td.task.timeEntries ∧ inWindow r.startDate r.endDate e) ∧
        td.entries ≠ [] ∧
        td.totalTime = (td.entries.map TimeEntry.duration).sum) ∧
      (∀ t ∈ tasks, (∃ td ∈ r.tasks, td.task = t) ↔
        t.timeEntries.filter (entryInWindow r.startDate r.endDate) ≠ []) ∧
      r.totalTime = (r.tasks.map TaskTimeData.totalTime).sum ∧
      List.Pairwise (fun a b => b.totalTime ≤ a.totalTime) r.tasks) ∧
    (toLowerL period.data ≠ "today".data → toLowerL period.data ≠ "week".data →
      toLowerL period.data ≠ "month".data →
      collectTimeData period now tasks = .error ("invalid period: " ++ period)) := by
  constructor
  · intro r hr
    rw [collectTimeData] at hr
    cases hw : periodWindow (toLowerL period.data) now with
    | none => rw [hw] at hr; exact absurd hr (by simp)
    | some w =>
      rw [hw] at hr
      injection hr with hr
      subst hr
      dsimp only
      set col := tasks.filterMap (taskWindowData w.1 w.2) with hcol
      have hperm : (List.insertionSort byTotalDesc col).Perm col :=
        List.perm_insertionSort byTotalDesc col
      have hmem_td : ∀ td, td ∈ col ↔
          ∃ t ∈ tasks, taskWindowData w.1 w.2 t = some td := by
        intro td; rw [hcol]; exact List.mem_filterMap
      have hsome : ∀ t td, taskWindowData w.1 w.2 t = some td →
          td.task = t ∧
          td.entries = t.timeEntries.filter (entryInWindow w.1 w.2) ∧
          td.entries ≠ [] ∧
          td.totalTime = (td.entries.map TimeEntry.duration).sum := by
        intro t td h
        rw [taskWindowData] at h
        by_cases h1 : t.timeEntries.isEmpty
        · rw [if_pos h1] at h; exact absurd h (by simp)
        · rw [if_neg h1] at h
          by_cases h2 : (t.timeEntries.filter (entryInWindow w.1 w.2)).isEmpty
          · rw [if_pos h2] at h; exact absurd h (by simp)
          · rw [if_neg h2] at h
            injection h with h
            subst h
            refine ⟨rfl, rfl, ?_, rfl⟩
            simpa [List.isEmpty_iff] using h2
      refine ⟨?_, ?_, ?_, ?_⟩
      · intro td htd
        have htd' : td ∈ col := hperm.mem_iff.mp htd
        obtain ⟨t, _, hs⟩ := (hmem_td td).mp htd'
        obtain ⟨hta, hent, hne, htot⟩ := hsome t td hs
        subst hta
        refine ⟨hent, ?_, hne, htot⟩
        intro e
        rw [hent, List.mem_filter]
        simp [entryInWindow, inWindow]
      · intro t ht
        constructor
        · rintro ⟨td, htd, hta⟩
          have htd' : td ∈ col := hperm.mem_iff.mp htd
          obtain ⟨t', _, hs⟩ := (hmem_td td).mp htd'
          obtain ⟨hta', hent, hne, _⟩ := hsome t' td hs
          rw [hent] at hne
          have heq : t' = t := by rw [← hta']; exact hta
          rw [← heq]
          exact hne
        · intro hne
          have h1 : ¬t.timeEntries.isEmpty := by
            intro h
            rw [List.isEmpty_iff] at h
            rw [h] at hne
            simp at hne
          have h2 : ¬(t.timeEntries.filter (entryInWindow w.1 w.2)).isEmpty := by
            rwa [Ne, ← List.isEmpty_iff] at hne
          have hs : taskWindowData w.1 w.2 t =
              some ⟨t, t.timeEntries.filter (entryInWindow w.1 w.2),
                    ((t.timeEntries.filter (entryInWindow w.1 w.2)).map
                      TimeEntry.duration).sum⟩ := by
            rw [taskWindowData, if_neg h1, if_neg h2]
          exact ⟨_, hperm.mem_iff.mpr ((hmem_td _).mpr ⟨t, ht, hs⟩), rfl⟩
      · exact ((hperm.map TaskTimeData.totalTime).sum_eq).symm
      · exact List.sorted_insertionSort byTotalDesc col
  · intro h1 h2 h3
    rw [collectTimeData, periodWindow, if_neg h1, if_neg h2, if_neg h3]

/-- C9 witness: on a concrete one-task run for period "today", task
inclusion coincides with having an entry inside the window. -/
theorem claim_C9_witness :
    (∃ td ∈ reportSample.tasks, td.task = taskTimed) ↔
      taskTimed.timeEntries.filter
        (entryInWindow reportSample.startDate reportSample.endDate) ≠ [] :=
  ((claim_C9 "today" ⟨2026, 10, 11⟩ [taskTimed]).1 reportSample (by decide)).2.1
    taskTimed (by simp)

/-! ### Helper lemmas for the duration codec claims -/

theorem atoiDigits_isSome {neg : Bool} {ds : List Char}
    (h : (atoiDigits neg ds).isSome) : ds ≠ [] ∧ ∀ c ∈ ds, isDigitC c := by
  rw [atoiDigits] at h
  split at h
  · simp at h
  · next hcond =>
    push_neg at hcond
    exact hcond

theorem atoi_chars {l : List Char} (h : (atoi l).isSome) :
    ∀ x ∈ l, x = '-' ∨ x = '+' ∨ isDigitC x := by
  rw [atoi] at h
  split at h
  · simp at h
  · next hne =>
    by_cases hs : l.head? = some '-' ∨ l.head? = some '+'
    · rw [if_pos hs] at h
      obtain ⟨_, hall⟩ := atoiDigits_isSome h
      intro x hx
      obtain ⟨c, cs, rfl⟩ := List.exists_cons_of_ne_nil hne
      rcases List.mem_cons.mp hx with hx | hx
      · subst hx
        simp only [List.head?_cons, Option.some.injEq] at hs
        rcases hs with hs | hs
        · exact Or.inl hs
        · exact Or.inr (Or.inl hs)
      · exact Or.inr (Or.inr (hall x hx))
    · rw [if_neg hs] at h
      obtain ⟨_, hall⟩ := atoiDigits_isSome h
      exact fun x hx => Or.inr (Or.inr (hall x hx))

theorem atoi_not_mem {l : List Char} (h : (atoi l).isSome) {x : Char}
    (h1 : x ≠ '-') (h2 : x ≠ '+') (h3 : isDigitC x = false) : x ∉ l := by
  intro hx
  rcases atoi_chars h x hx with h' | h' | h' <;> simp_all

theorem splitChar_ne_nil (c : Char) (l : List Char) : splitChar c l ≠ [] := by
  induction l with
  | nil => simp [splitChar]
  | cons x xs ih =>
    by_cases hx : x = c
    · simp [splitChar, hx]
    · simp only [splitChar, if_neg hx]
      cases hs : splitChar c xs with
      | nil => exact absurd hs ih
      | cons a t => simp

theorem splitChar_not_mem {c : Char} : ∀ {l : List Char}, c ∉ l → splitChar c l = [l] := by
  intro l
  induction l with
  | nil => intro _; rfl
  | cons x xs ih =>
    intro h
    have hx : x ≠ c := by rintro rfl; exact h (List.mem_cons_self _ _)
    have hxs : c ∉ xs := fun hc => h (List.mem_cons_of_mem _ hc)
    simp only [splitChar, if_neg hx, ih hxs]

theorem splitChar_append {c : Char} : ∀ {a : List Char} (r : List Char), c ∉ a →
    splitChar c (a ++ c :: r) = a :: splitChar c r := by
  intro a
  induction a with
  | nil => intro r _; simp [splitChar]
  | cons x xs ih =>
    intro r h
    have hx : x ≠ c := by rintro rfl; exact h (List.mem_cons_self _ _)
    have hxs : c ∉ xs := fun hc => h (List.mem_cons_of_mem _ hc)
    simp only [List.cons_append, splitChar, if_neg hx]
    rw [show xs.append (c :: r) = xs ++ c :: r from rfl, ih r hxs]

theorem splitChar_eq_one {c : Char} : ∀ {l b : List Char},
    splitChar c l = [b] → l = b ∧ c ∉ b := by
  intro l
  induction l with
  | nil =>
    intro b h
    simp only [splitChar, List.cons.injEq] at h
    exact ⟨h.1, by rw [← h.1]; simp⟩
  | cons x xs ih =>
    intro b h
    by_cases hx : x = c
    · subst hx
      simp only [splitChar, if_pos rfl] at h
      injection h with h1 h2
      exact absurd h2 (splitChar_ne_nil x xs)
    · simp only [splitChar, if_neg hx] at h
      cases hs : splitChar c xs with
      | nil => exact absurd hs (splitChar_ne_nil c xs)
      | cons hd tl =>
        rw [hs] at h
        injection h with h1 h2
        obtain ⟨hxs, hmem⟩ := ih (show splitChar c xs = [hd] by rw [hs, h2])
        subst h1
        refine ⟨by rw [hxs], ?_⟩
        intro hcm
        rcases List.mem_cons.mp hcm with h' | h'
        · exact hx h'.symm
        · exact hmem h'

theorem splitChar_eq_two {c : Char} : ∀ {l a b : List Char},
    splitChar c l = [a, b] → l = a ++ c :: b ∧ c ∉ a ∧ c ∉ b := by
  intro l
  induction l with
  | nil =>
    intro a b h
    exact absurd h (by simp [splitChar])
  | cons x xs ih =>
    intro a b h
    by_cases hx : x = c
    · subst hx
      simp only [splitChar, if_pos rfl] at h
      injection h with h1 h2
      obtain ⟨hxs, hmem⟩ := splitChar_eq_one h2
      refine ⟨?_, by rw [← h1]; simp, hmem⟩
      rw [← h1, hxs]
      rfl
    · simp only [splitChar, if_neg hx] at h
      cases hs : splitChar c xs with
      | nil => exact absurd hs (splitChar_ne_nil c xs)
      | cons hd tl =>
        rw [hs] at h
        injection h with h1 h2
        obtain ⟨hxs, hm1, hm2⟩ := ih (show splitChar c xs = [hd, b] by rw [hs, h2])
        subst h1
        refine ⟨by simp [hxs], ?_, hm2⟩
        intro hcm
        rcases List.mem_cons.mp hcm with h' | h'
        · exact hx h'.symm
        · exact hm1 h'

theorem trimSuffixChar_concat (c : Char) (b : List Char) :
    trimSuffixChar c (b ++ [c]) = b := by
  simp [trimSuffixChar, List.getLast?_concat, List.dropLast_concat]

theorem trimSuffixChar_of_ne {c : Char} {l : List Char} (h : l.getLast? ≠ some c) :
    trimSuffixChar c l = l := by
  cases hl : l.getLast? with
  | none => rw [trimSuffixChar, hl]
  | some c' =>
    rw [trimSuffixChar, hl]
    show (if c' = c then l.dropLast else l) = l
    rw [if_neg]
    intro he
    exact h (by rw [hl, he])

theorem eq_dropLast_concat {l : List Char} {c : Char} (h : l.getLast? = some c) :
    l = l.dropLast ++ [c] := by
  have hne : l ≠ [] := by rintro rfl; simp at h
  have h2 := List.getLast?_eq_getLast l hne
  rw [h2] at h
  injection h with h
  rw [← h]
  exact (List.dropLast_append_getLast hne).symm

theorem trimSuffixChar_of_last {c : Char} {l : List Char} (h : l.getLast? = some c) :
    trimSuffixChar c l = l.dropLast := by
  rw [trimSuffixChar, h]
  show (if c = c then l.dropLast else l) = l.dropLast
  rw [if_pos rfl]

/-- The fallback arm accepts exactly the three spec shapes. -/
theorem fallback_isOk_iff (t : List Char) : (parseDurFallback t).isOk = true ↔ durShape t := by
  by_cases hh : 'h' ∈ t
  · by_cases hm : 'm' ∈ t
    · -- both letters occur: the <H>h<M>m branch
      rw [parseDurFallback, if_pos ⟨hh, hm⟩]
      constructor
      · intro hOk
        cases hs : splitChar 'h' t with
        | nil => simp [hs, Except.isOk, Except.toBool] at hOk
        | cons a tl =>
          cases tl with
          | nil => simp [hs, Except.isOk, Except.toBool] at hOk
          | cons b tl2 =>
            cases tl2 with
            | cons u v => simp [hs, Except.isOk, Except.toBool] at hOk
            | nil =>
              rw [hs] at hOk
              cases hA : atoi a with
              | none => simp [hA, Except.isOk, Except.toBool] at hOk
              | some hv =>
                cases hB : atoi (trimSuffixChar 'm' b) with
                | none => simp [hA, hB, Except.isOk, Except.toBool] at hOk
                | some mv =>
                  obtain ⟨hteq, hna, hnb⟩ := splitChar_eq_two hs
                  have hAs : (atoi a).isSome := by rw [hA]; rfl
                  have hmb : 'm' ∈ b := by
                    rw [hteq] at hm
                    rcases List.mem_append.mp hm with h' | h'
                    · exact absurd h'
                        (atoi_not_mem hAs (by decide) (by decide) (by decide))
                    · rcases List.mem_cons.mp h' with h'' | h''
                      · exact absurd h'' (by decide)
                      · exact h''
                  by_cases hbl : b.getLast? = some 'm'
                  · refine Or.inl ⟨a, b.dropLast, ?_, hAs, ?_⟩
                    · rw [hteq]
                      exact congrArg (fun z => a ++ 'h' :: z) (eq_dropLast_concat hbl)
                    · rw [trimSuffixChar_of_last hbl] at hB
                      rw [hB]; rfl
                  · rw [trimSuffixChar_of_ne hbl] at hB
                    exact absurd hmb
                      (atoi_not_mem (by rw [hB]; rfl) (by decide) (by decide) (by decide))
      · intro hShape
        rcases hShape with ⟨a, b, hteq, hA, hB⟩ | ⟨a, hteq, hA⟩ | ⟨b, hteq, hB⟩
        · have hna : 'h' ∉ a := atoi_not_mem hA (by decide) (by decide) (by decide)
          have hnb : 'h' ∉ b ++ ['m'] := by
            intro hmem
            rcases List.mem_append.mp hmem with h' | h'
            · exact atoi_not_mem hB (by decide) (by decide) (by decide) h'
            · simp at h'
          have hs : splitChar 'h' t = [a, b ++ ['m']] := by
            rw [hteq, splitChar_append _ hna, splitChar_not_mem hnb]
          obtain ⟨av, hav⟩ := Option.isSome_iff_exists.mp hA
          obtain ⟨bv, hbv⟩ := Option.isSome_iff_exists.mp hB
          simp [hs, hav, trimSuffixChar_concat, hbv, Except.isOk, Except.toBool]
        · exfalso
          apply absurd hm
          rw [hteq]
          intro hmem
          rcases List.mem_append.mp hmem with h' | h'
          · exact atoi_not_mem hA (by decide) (by decide) (by decide) h'
          · simp at h'
        · exfalso
          apply absurd hh
          rw [hteq]
          intro hmem
          rcases List.mem_append.mp hmem with h' | h'
          · exact atoi_not_mem hB (by decide) (by decide) (by decide) h'
          · simp at h'
    · -- only h occurs: the <H>h branch
      rw [parseDurFallback, if_neg (fun hc => hm hc.2), if_pos hh]
      constructor
      · intro hOk
        cases hA : atoi (trimSuffixChar 'h' t) with
        | none => simp [hA, Except.isOk, Except.toBool] at hOk
        | some v =>
          by_cases hl : t.getLast? = some 'h'
          · refine Or.inr (Or.inl ⟨t.dropLast, eq_dropLast_concat hl, ?_⟩)
            rw [trimSuffixChar_of_last hl] at hA
            rw [hA]; rfl
          · rw [trimSuffixChar_of_ne hl] at hA
            exact absurd hh
              (atoi_not_mem (by rw [hA]; rfl) (by decide) (by decide) (by decide))
      · intro hShape
        rcases hShape with ⟨a, b, hteq, hA, hB⟩ | ⟨a, hteq, hA⟩ | ⟨b, hteq, hB⟩
        · exfalso; apply hm; rw [hteq]; simp
        · obtain ⟨av, hav⟩ := Option.isSome_iff_exists.mp hA
          rw [hteq, trimSuffixChar_concat]
          simp [hav, Except.isOk, Except.toBool]
        · exfalso; apply hm; rw [hteq]; simp
  · by_cases hm : 'm' ∈ t
    · -- only m occurs: the <M>m branch
      rw [parseDurFallback, if_neg (fun hc => hh hc.1), if_neg hh, if_pos hm]
      constructor
      · intro hOk
        cases hB : atoi (trimSuffixChar 'm' t) with
        | none => simp [hB, Except.isOk, Except.toBool] at hOk
        | some v =>
          by_cases hl : t.getLast? = some 'm'
          · refine Or.inr (Or.inr ⟨t.dropLast, eq_dropLast_concat hl, ?_⟩)
            rw [trimSuffixChar_of_last hl] at hB
            rw [hB]; rfl
          · rw [trimSuffixChar_of_ne hl] at hB
            exact absurd hm
              (atoi_not_mem (by rw [hB]; rfl) (by decide) (by decide) (by decide))
      · intro hShape
        rcases hShape with ⟨a, b, hteq, hA, hB⟩ | ⟨a, hteq, hA⟩ | ⟨b, hteq, hB⟩
        · exfalso; apply hh; rw [hteq]; simp
        · exfalso; apply hh; rw [hteq]; simp
        · obtain ⟨bv, hbv⟩ := Option.isSome_iff_exists.mp hB
          rw [hteq, trimSuffixChar_concat]
          simp [hbv, Except.isOk, Except.toBool]
    · -- neither letter occurs: rejected, and no shape fits
      rw [parseDurFallback, if_neg (fun hc => hh hc.1), if_neg hh, if_neg hm]
      constructor
      · intro hOk; simp [Except.isOk, Except.toBool] at hOk
      · intro hShape
        exfalso
        rcases hShape with ⟨a, b, hteq, _, _⟩ | ⟨a, hteq, _⟩ | ⟨b, hteq, _⟩
        · apply hh; rw [hteq]; simp
        · apply hh; rw [hteq]; simp
        · apply hm; rw [hteq]; simp

theorem parseDuration_isOk_fallback {s : String}
    (h : goParseDuration (toLowerL s.data) = none) :
    (parseDuration s).isOk = (parseDurFallback (toLowerL s.data)).isOk := by
  rw [parseDuration, h]
  cases hf : parseDurFallback (toLowerL s.data) with
  | error e => rfl
  | ok hm => rfl

/-- C6 counterexample: "30s" matches none of the three supported shapes
(it contains neither an h nor an m component), yet `parseDuration`
accepts it — Go's built-in duration parser is tried first. -/
theorem claim_C6_counterexample :
    ¬ durShape (toLowerL "30s".data) ∧ parseDuration "30s" = .ok 30000000000 := by
  constructor
  · intro hShape
    rcases hShape with ⟨a, b, hteq, _, _⟩ | ⟨a, hteq, _⟩ | ⟨b, hteq, _⟩
    · have : 'h' ∈ toLowerL "30s".data := by rw [hteq]; simp
      revert this; decide
    · have : 'h' ∈ toLowerL "30s".data := by rw [hteq]; simp
      revert this; decide
    · have : 'm' ∈ toLowerL "30s".data := by rw [hteq]; simp
      revert this; decide
  · decide

/-- C6 amended: `parseDuration` accepts any string accepted by Go's
built-in `time.ParseDuration` (e.g. "30s"), and among the strings the
built-in parser rejects it accepts exactly the three spec shapes
`<H>h<M>m`, `<H>h`, `<M>m` with Atoi-numeric components. -/
theorem claim_C6 (s : String) (h : goParseDuration (toLowerL s.data) = none) :
    (parseDuration s).isOk = true ↔ durShape (toLowerL s.data) := by
  rw [parseDuration_isOk_fallback h]
  exact fallback_isOk_iff (toLowerL s.data)

/-- C6 witness: "9999999999h" overflows the built-in parser but is of
shape `<H>h`, so the fallback accepts it. -/
theorem claim_C6_witness : (parseDuration "9999999999h").isOk = true :=
  (claim_C6 "9999999999h" (by decide)).mpr
    (Or.inr (Or.inl ⟨"9999999999".data, by decide, by decide⟩))

/-! ### Helper lemmas for the round-trip claim -/

theorem valFrom_le : ∀ (l : List Char) (x : Nat), x ≤ valFrom x l
  | [], _ => le_refl _
  | c :: cs, x =>
    le_trans (by omega : x ≤ x * 10 + (c.toNat - 48)) (valFrom_le cs (x * 10 + (c.toNat - 48)))

theorem valFrom_cons (x : Nat) (c : Char) (cs : List Char) :
    valFrom x (c :: cs) = valFrom (x * 10 + (c.toNat - 48)) cs := rfl

/-- `leadingInt` consumes a digit prefix whose value stays in range and
stops at the first non-digit. -/
theorem leadingIntGo_spec : ∀ (a r : List Char) (x : Nat),
    (∀ c ∈ a, isDigitC c) →
    (∀ c, r.head? = some c → isDigitC c = false) →
    valFrom x a ≤ (i64cap - 1) / 10 →
    leadingIntGo (a ++ r) x = some (valFrom x a, r) := by
  intro a
  induction a with
  | nil =>
    intro r x _ hr _
    cases r with
    | nil => rfl
    | cons c cs =>
      have hc := hr c rfl
      simp [leadingIntGo, hc, valFrom]
  | cons c cs ih =>
    intro r x hd hr hbound
    have hdc : isDigitC c := hd c (List.mem_cons_self _ _)
    have hvf : valFrom x (c :: cs) = valFrom (x * 10 + (c.toNat - 48)) cs := rfl
    have hle1 : x ≤ valFrom x (c :: cs) := valFrom_le _ _
    have hle2 : x * 10 + (c.toNat - 48) ≤ valFrom x (c :: cs) := by
      rw [hvf]; exact valFrom_le _ _
    have hcap : (i64cap - 1) / 10 + 1 ≤ i64cap := by decide
    have hx1 : ¬ x > (i64cap - 1) / 10 := by omega
    have hx2 : ¬ x * 10 + (c.toNat - 48) > i64cap := by omega
    rw [List.cons_append]
    show leadingIntGo (c :: (cs ++ r)) x = _
    rw [show leadingIntGo (c :: (cs ++ r)) x =
        (if isDigitC c then
          if x > (i64cap - 1) / 10 then none
          else if x * 10 + (c.toNat - 48) > i64cap then none
          else leadingIntGo (cs ++ r) (x * 10 + (c.toNat - 48))
        else some (x, c :: (cs ++ r))) from rfl]
    rw [if_pos hdc, if_neg hx1, if_neg hx2,
        ih r (x * 10 + (c.toNat - 48)) (fun c' hc' => hd c' (List.mem_cons_of_mem _ hc'))
          hr (by rw [← hvf]; exact hbound), hvf]

/-- One iteration of the `ParseDuration` loop on a digit component
followed by a one-letter unit. -/
theorem goPDLoop_step (fuel : Nat) (a r : List Char) (d : Nat) (uc : Char) (unit : Nat)
    (ha : ∀ c ∈ a, isDigitC c) (hane : a ≠ [])
    (hu : unitNs [uc] = some unit) (hud : isDigitC uc = false) (hudot : uc ≠ '.')
    (hr : ∀ c, r.head? = some c → isDigitC c = true)
    (hbound : valFrom 0 a ≤ (i64cap - 1) / 10)
    (hvcap : ¬ valFrom 0 a > i64cap / unit)
    (hdcap : ¬ d + valFrom 0 a * unit > i64cap) :
    goPDLoop (fuel + 1) (a ++ uc :: r) d = goPDLoop fuel r (d + valFrom 0 a * unit) := by
  obtain ⟨c0, a', rfl⟩ := List.exists_cons_of_ne_nil hane
  have hd0 : isDigitC c0 := ha c0 (List.mem_cons_self _ _)
  have hnn : ¬ notNumC c0 = true := by simp [notNumC, hd0]
  have hlead : leadingIntGo (c0 :: (a' ++ uc :: r)) 0 = some (valFrom 0 (c0 :: a'), uc :: r) := by
    rw [← List.cons_append]
    exact leadingIntGo_spec (c0 :: a') (uc :: r) 0 ha
      (fun c h => by injection h with h; exact h ▸ hud) hbound
  have hnu : notNumC uc = true := by simp [notNumC, hud, hudot]
  have hu1 : (uc :: r).takeWhile notNumC = [uc] := by
    cases r with
    | nil => simp [List.takeWhile_cons, hnu]
    | cons c1 r' =>
      have h2 : notNumC c1 = false := by simp [notNumC, hr c1 rfl]
      simp [List.takeWhile_cons, hnu, h2]
  have hs3 : (uc :: r).dropWhile notNumC = r := by
    cases r with
    | nil => simp [List.dropWhile_cons, hnu]
    | cons c1 r' =>
      have h2 : notNumC c1 = false := by simp [notNumC, hr c1 rfl]
      simp [List.dropWhile_cons, hnu, h2]
  have hpre : ((uc :: r).length ≠ (c0 :: (a' ++ uc :: r)).length) := by
    simp [List.length_append]
    omega
  have hdot : ¬ ((uc :: r).head? = some '.') := by
    simp only [List.head?_cons, Option.some.injEq]
    exact hudot
  rw [List.cons_append]
  simp only [goPDLoop]
  rw [if_neg hnn, hlead]
  simp only [if_neg hdot, hu1, hs3, hu]
  rw [if_neg hvcap]
  simp only [decide_eq_true_eq, hpre, decide_True, Bool.not_true, Bool.false_and,
    Bool.false_eq_true, if_false, gt_iff_lt, lt_self_iff_false, Bool.and_self]
  rw [if_neg (by simp : ¬ ([uc] = [])), if_neg hdcap]
  simp [hpre]
  intro h
  omega

theorem comp_le_safe {v unit : Nat} (hunit : 60000000000 ≤ unit) (h : v * unit ≤ i64cap) :
    v ≤ (i64cap - 1) / 10 := by
  have h1 : v ≤ i64cap / unit := (Nat.le_div_iff_mul_le (by omega)).mpr h
  have h2 : i64cap / unit ≤ i64cap / 60000000000 :=
    Nat.div_le_div_left hunit (by norm_num)
  have h3 : i64cap / 60000000000 ≤ (i64cap - 1) / 10 := by decide
  omega

theorem comp_not_gt_div {v unit : Nat} (hpos : 0 < unit) (h : v * unit ≤ i64cap) :
    ¬ v > i64cap / unit := by
  rw [gt_iff_lt, not_lt]
  exact (Nat.le_div_iff_mul_le hpos).mpr h

/-- `time.ParseDuration` on `<digits>h`. -/
theorem goParse_h (a : List Char) (ha : ∀ c ∈ a, isDigitC c) (hane : a ≠ [])
    (hbound : valFrom 0 a * nsHour < i64cap) :
    goParseDuration (a ++ ['h']) = some ((valFrom 0 a * nsHour : Nat) : Int) := by
  obtain ⟨c0, a', rfl⟩ := List.exists_cons_of_ne_nil hane
  have hd0 : isDigitC c0 := ha c0 (List.mem_cons_self _ _)
  have hAle : valFrom 0 (c0 :: a') * nsHour ≤ i64cap := le_of_lt hbound
  have hm1 : ¬ ((c0 :: a') ++ ['h']).head? = some '-' := by
    intro hcon
    rw [List.cons_append, List.head?_cons] at hcon
    injection hcon with hcon
    rw [hcon] at hd0
    exact absurd hd0 (by decide)
  have hm2 : ¬ ((c0 :: a') ++ ['h']).head? = some '+' := by
    intro hcon
    rw [List.cons_append, List.head?_cons] at hcon
    injection hcon with hcon
    rw [hcon] at hd0
    exact absurd hd0 (by decide)
  have hs0 : ¬ ((c0 :: a') ++ ['h'] = ['0']) := by
    intro hcon
    have := congrArg List.length hcon
    simp [List.length_append] at this
  have hsne : ¬ ((c0 :: a') ++ ['h'] = []) := by simp
  rw [goParseDuration]
  simp only [if_neg hm1, if_neg hm2, if_neg hs0, if_neg hsne]
  have hlen : ((c0 :: a') ++ ['h']).length = (a'.length + 1) + 1 := by
    simp [List.length_append]
  rw [hlen]
  rw [show ((c0 :: a') ++ ['h'] : List Char) = (c0 :: a') ++ 'h' :: [] from rfl]
  rw [goPDLoop_step (a'.length + 1 + 1) (c0 :: a') [] 0 'h' nsHour ha (by simp)
    (by decide) (by decide) (by decide) (fun c h => by simp at h)
    (comp_le_safe (by norm_num [nsHour]) hAle)
    (comp_not_gt_div (by norm_num [nsHour]) hAle)
    (by simp only [Nat.zero_add, gt_iff_lt, not_lt]; exact hAle)]
  rw [show a'.length + 1 + 1 = (a'.length + 1) + 1 from rfl]
  rw [show goPDLoop (a'.length + 1 + 1) [] (0 + valFrom 0 (c0 :: a') * nsHour) =
      some (0 + valFrom 0 (c0 :: a') * nsHour) from rfl]
  simp only [Nat.zero_add]
  rw [if_neg (by simp : ¬ (false = true)),
      if_neg (by simp only [gt_iff_lt, not_lt]; omega :
        ¬ valFrom 0 (c0 :: a') * nsHour > i64cap - 1)]

/-- `time.ParseDuration` on `<digits>m`. -/
theorem goParse_m (b : List Char) (hb : ∀ c ∈ b, isDigitC c) (hbne : b ≠ [])
    (hbound : valFrom 0 b * nsMinute < i64cap) :
    goParseDuration (b ++ ['m']) = some ((valFrom 0 b * nsMinute : Nat) : Int) := by
  obtain ⟨c0, b', rfl⟩ := List.exists_cons_of_ne_nil hbne
  have hd0 : isDigitC c0 := hb c0 (List.mem_cons_self _ _)
  have hBle : valFrom 0 (c0 :: b') * nsMinute ≤ i64cap := le_of_lt hbound
  have hm1 : ¬ ((c0 :: b') ++ ['m']).head? = some '-' := by
    intro hcon
    rw [List.cons_append, List.head?_cons] at hcon
    injection hcon with hcon
    rw [hcon] at hd0
    exact absurd hd0 (by decide)
  have hm2 : ¬ ((c0 :: b') ++ ['m']).head? = some '+' := by
    intro hcon
    rw [List.cons_append, List.head?_cons] at hcon
    injection hcon with hcon
    rw [hcon] at hd0
    exact absurd hd0 (by decide)
  have hs0 : ¬ ((c0 :: b') ++ ['m'] = ['0']) := by
    intro hcon
    have := congrArg List.length hcon
    simp [List.length_append] at this
  have hsne : ¬ ((c0 :: b') ++ ['m'] = []) := by simp
  rw [goParseDuration]
  simp only [if_neg hm1, if_neg hm2, if_neg hs0, if_neg hsne]
  have hlen : ((c0 :: b') ++ ['m']).length = (b'.length + 1) + 1 := by
    simp [List.length_append]
  rw [hlen]
  rw [show ((c0 :: b') ++ ['m'] : List Char) = (c0 :: b') ++ 'm' :: [] from rfl]
  rw [goPDLoop_step (b'.length + 1 + 1) (c0 :: b') [] 0 'm' nsMinute hb (by simp)
    (by decide) (by decide) (by decide) (fun c h => by simp at h)
    (comp_le_safe (by norm_num [nsMinute]) hBle)
    (comp_not_gt_div (by norm_num [nsMinute]) hBle)
    (by simp only [Nat.zero_add, gt_iff_lt, not_lt]; exact hBle)]
  rw [show goPDLoop (b'.length + 1 + 1) [] (0 + valFrom 0 (c0 :: b') * nsMinute) =
      some (0 + valFrom 0 (c0 :: b') * nsMinute) from rfl]
  simp only [Nat.zero_add]
  rw [if_neg (by simp : ¬ (false = true)),
      if_neg (by simp only [gt_iff_lt, not_lt]; omega :
        ¬ valFrom 0 (c0 :: b') * nsMinute > i64cap - 1)]

/-- `time.ParseDuration` on `<digits>h<digits>m`. -/
theorem goParse_hm (a b : List Char)
    (ha : ∀ c ∈ a, isDigitC c) (hane : a ≠ [])
    (hb : ∀ c ∈ b, isDigitC c) (hbne : b ≠ [])
    (hbound : valFrom 0 a * nsHour + valFrom 0 b * nsMinute < i64cap) :
    goParseDuration (a ++ 'h' :: (b ++ ['m'])) =
      some ((valFrom 0 a * nsHour + valFrom 0 b * nsMinute : Nat) : Int) := by
  obtain ⟨c0, a', rfl⟩ := List.exists_cons_of_ne_nil hane
  obtain ⟨d0, b', rfl⟩ := List.exists_cons_of_ne_nil hbne
  have hd0 : isDigitC c0 := ha c0 (List.mem_cons_self _ _)
  have he0 : isDigitC d0 := hb d0 (List.mem_cons_self _ _)
  have hAle : valFrom 0 (c0 :: a') * nsHour ≤ i64cap := by omega
  have hBle : valFrom 0 (d0 :: b') * nsMinute ≤ i64cap := by omega
  have hm1 : ¬ ((c0 :: a') ++ 'h' :: ((d0 :: b') ++ ['m'])).head? = some '-' := by
    intro hcon
    rw [List.cons_append, List.head?_cons] at hcon
    injection hcon with hcon
    rw [hcon] at hd0
    exact absurd hd0 (by decide)
  have hm2 : ¬ ((c0 :: a') ++ 'h' :: ((d0 :: b') ++ ['m'])).head? = some '+' := by
    intro hcon
    rw [List.cons_append, List.head?_cons] at hcon
    injection hcon with hcon
    rw [hcon] at hd0
    exact absurd hd0 (by decide)
  have hs0 : ¬ ((c0 :: a') ++ 'h' :: ((d0 :: b') ++ ['m']) = ['0']) := by
    intro hcon
    have := congrArg List.length hcon
    simp [List.length_append] at this
  have hsne : ¬ ((c0 :: a') ++ 'h' :: ((d0 :: b') ++ ['m']) = []) := by simp
  rw [goParseDuration]
  simp only [if_neg hm1, if_neg hm2, if_neg hs0, if_neg hsne]
  have hlen : ((c0 :: a') ++ 'h' :: ((d0 :: b') ++ ['m'])).length =
      (a'.length + b'.length + 3) + 1 := by
    simp [List.length_append]
    omega
  rw [hlen]
  rw [show a'.length + b'.length + 3 + 1 + 1 = (a'.length + b'.length + 4) + 1 from by omega]
  rw [goPDLoop_step (a'.length + b'.length + 4) (c0 :: a') ((d0 :: b') ++ ['m']) 0 'h'
    nsHour ha (by simp) (by decide) (by decide) (by decide)
    (fun c h => by rw [List.cons_append, List.head?_cons] at h; injection h with h; exact h ▸ he0)
    (comp_le_safe (by norm_num [nsHour]) hAle)
    (comp_not_gt_div (by norm_num [nsHour]) hAle)
    (by simp only [Nat.zero_add, gt_iff_lt, not_lt]; exact hAle)]
  rw [show a'.length + b'.length + 4 = (a'.length + b'.length + 3) + 1 from by omega]
  rw [show ((d0 :: b') ++ ['m'] : List Char) = (d0 :: b') ++ 'm' :: [] from rfl]
  rw [goPDLoop_step (a'.length + b'.length + 3) (d0 :: b') [] _ 'm' nsMinute hb (by simp)
    (by decide) (by decide) (by decide) (fun c h => by simp at h)
    (comp_le_safe (by norm_num [nsMinute]) hBle)
    (comp_not_gt_div (by norm_num [nsMinute]) hBle)
    (by simp only [Nat.zero_add, gt_iff_lt, not_lt]; omega)]
  rw [show a'.length + b'.length + 3 = (a'.length + b'.length + 2) + 1 from by omega]
  rw [show goPDLoop ((a'.length + b'.length + 2) + 1) []
      (0 + valFrom 0 (c0 :: a') * nsHour + valFrom 0 (d0 :: b') * nsMinute) =
      some (0 + valFrom 0 (c0 :: a') * nsHour + valFrom 0 (d0 :: b') * nsMinute) from rfl]
  simp only [Nat.zero_add]
  rw [if_neg (by simp : ¬ (false = true)),
      if_neg (by simp only [gt_iff_lt, not_lt]; omega :
        ¬ valFrom 0 (c0 :: a') * nsHour + valFrom 0 (d0 :: b') * nsMinute > i64cap - 1)]

theorem digitChar_digit (k : Nat) (h : k < 10) : isDigitC (digitChar k) := by
  interval_cases k <;> decide

theorem digitChar_val (k : Nat) (h : k < 10) : (digitChar k).toNat - 48 = k := by
  interval_cases k <;> decide

theorem valFrom_concat (x : Nat) (l : List Char) (c : Char) :
    valFrom x (l ++ [c]) = valFrom x l * 10 + (c.toNat - 48) := by
  simp [valFrom, List.foldl_append]

theorem natDigitsF_spec : ∀ (fuel n : Nat), n < fuel →
    (∀ c ∈ natDigitsF fuel n, isDigitC c) ∧ natDigitsF fuel n ≠ [] ∧
    valFrom 0 (natDigitsF fuel n) = n := by
  intro fuel
  induction fuel with
  | zero => intro n h; omega
  | succ f ih =>
    intro n h
    by_cases h10 : n < 10
    · simp only [natDigitsF, if_pos h10]
      refine ⟨?_, by simp, ?_⟩
      · intro c hc
        simp only [List.mem_singleton] at hc
        subst hc
        exact digitChar_digit n h10
      · show 0 * 10 + ((digitChar n).toNat - 48) = n
        rw [digitChar_val n h10]
        omega
    · simp only [natDigitsF, if_neg h10]
      have hrec : n / 10 < f := by omega
      obtain ⟨hd, hne, hval⟩ := ih (n / 10) hrec
      refine ⟨?_, by simp, ?_⟩
      · intro c hc
        rcases List.mem_append.mp hc with hc | hc
        · exact hd c hc
        · simp only [List.mem_singleton] at hc
          subst hc
          exact digitChar_digit _ (Nat.mod_lt _ (by omega))
      · rw [valFrom_concat, hval, digitChar_val _ (Nat.mod_lt _ (by omega))]
        omega

theorem natDigits_spec (n : Nat) :
    (∀ c ∈ natDigits n, isDigitC c) ∧ natDigits n ≠ [] ∧ valFrom 0 (natDigits n) = n :=
  natDigitsF_spec (n + 1) n (by omega)

theorem intStr_coe (k : Nat) : intStr ((k : Nat) : Int) = natDigits k := by
  rw [intStr, if_neg (not_lt.mpr (Int.natCast_nonneg k)), Int.toNat_ofNat]

theorem toLowerC_digit {c : Char} (h : isDigitC c) : toLowerC c = c := by
  have h9 : c ≤ '9' := by
    have := h
    simp only [isDigitC, Bool.and_eq_true, decide_eq_true_eq] at this
    exact this.2
  have hA : ¬ ('A' ≤ c) := not_le.mpr (lt_of_le_of_lt h9 (by decide))
  rw [toLowerC, if_neg]
  intro hcon
  rw [Bool.and_eq_true, decide_eq_true_eq, decide_eq_true_eq] at hcon
  exact hA hcon.1

theorem toLowerL_self {l : List Char} (h : ∀ c ∈ l, toLowerC c = c) : toLowerL l = l := by
  rw [toLowerL]
  rw [List.map_congr_left h]
  exact List.map_id l

theorem parseDuration_of_go {l : List Char} {v : Int} (hlow : toLowerL l = l)
    (hgo : goParseDuration l = some v) : parseDuration ⟨l⟩ = .ok v := by
  rw [parseDuration]
  rw [show (String.mk l).data = l from rfl, hlow, hgo]

theorem tdivCoe (p q : Nat) : ((p : Nat) : Int).tdiv ((q : Nat) : Int) = ((p / q : Nat) : Int) :=
  rfl

theorem tmodCoe (p q : Nat) : ((p : Nat) : Int).tmod ((q : Nat) : Int) = ((p % q : Nat) : Int) :=
  rfl

theorem tmod60Coe (p : Nat) : ((p : Nat) : Int).tmod (60 : Int) = ((p % 60 : Nat) : Int) := rfl

/-- Core of the round-trip property: every whole-minute, in-range,
non-negative duration survives format-then-parse unchanged. -/
theorem roundtrip_minutes (T : Nat) (hT : T * nsMinute < i64cap) :
    parseDuration (formatDuration ((T * nsMinute : Nat) : Int)) =
      .ok ((T * nsMinute : Nat) : Int) := by
  by_cases hT0 : T = 0
  · subst hT0; decide
  · have hdiv1 : T * nsMinute / nsHour = T / 60 := by
      simp only [nsMinute, nsHour]
      omega
    have hdiv2 : T * nsMinute / nsMinute = T :=
      Nat.mul_div_cancel _ (by norm_num [nsMinute])
    have hne0 : ¬ (((T * nsMinute : Nat) : Int) = 0) := by
      intro hcon
      rw [Int.natCast_eq_zero] at hcon
      simp only [nsMinute] at hcon
      omega
    simp only [formatDuration]
    rw [if_neg hne0, tdivCoe, tdivCoe, tmod60Coe, hdiv1, hdiv2]
    by_cases hH : 0 < T / 60
    · by_cases hM : 0 < T % 60
      · rw [if_pos ⟨by exact_mod_cast hH, by exact_mod_cast hM⟩, intStr_coe, intStr_coe]
        obtain ⟨hdH, hneH, hvH⟩ := natDigits_spec (T / 60)
        obtain ⟨hdM, hneM, hvM⟩ := natDigits_spec (T % 60)
        have hid : T / 60 * nsHour + T % 60 * nsMinute = T * nsMinute := by
          simp only [nsHour, nsMinute]
          omega
        have hbound : valFrom 0 (natDigits (T / 60)) * nsHour +
            valFrom 0 (natDigits (T % 60)) * nsMinute < i64cap := by
          rw [hvH, hvM, hid]; exact hT
        have hgo := goParse_hm (natDigits (T / 60)) (natDigits (T % 60)) hdH hneH hdM hneM hbound
        rw [hvH, hvM, hid] at hgo
        apply parseDuration_of_go _ hgo
        apply toLowerL_self
        intro c hc
        rcases List.mem_append.mp hc with hc | hc
        · exact toLowerC_digit (hdH c hc)
        · rcases List.mem_cons.mp hc with hc | hc
          · subst hc; decide
          · rcases List.mem_append.mp hc with hc | hc
            · exact toLowerC_digit (hdM c hc)
            · simp only [List.mem_singleton] at hc; subst hc; decide
      · have hM0 : T % 60 = 0 := by omega
        have hcond1 : ¬ (0 < ((T / 60 : Nat) : Int) ∧ 0 < ((T % 60 : Nat) : Int)) := by
          rw [hM0]; simp
        rw [if_neg hcond1, if_pos (by exact_mod_cast hH : 0 < ((T / 60 : Nat) : Int)),
            intStr_coe]
        obtain ⟨hdH, hneH, hvH⟩ := natDigits_spec (T / 60)
        have hid : T / 60 * nsHour = T * nsMinute := by
          simp only [nsHour, nsMinute]
          omega
        have hbound : valFrom 0 (natDigits (T / 60)) * nsHour < i64cap := by
          rw [hvH, hid]; exact hT
        have hgo := goParse_h (natDigits (T / 60)) hdH hneH hbound
        rw [hvH, hid] at hgo
        apply parseDuration_of_go _ hgo
        apply toLowerL_self
        intro c hc
        rcases List.mem_append.mp hc with hc | hc
        · exact toLowerC_digit (hdH c hc)
        · simp only [List.mem_singleton] at hc; subst hc; decide
    · have hH0 : T / 60 = 0 := by omega
      have hcond1 : ¬ (0 < ((T / 60 : Nat) : Int) ∧ 0 < ((T % 60 : Nat) : Int)) := by
        rw [hH0]; simp
      have hcond2 : ¬ (0 < ((T / 60 : Nat) : Int)) := by rw [hH0]; simp
      rw [if_neg hcond1, if_neg hcond2, intStr_coe]
      obtain ⟨hdM, hneM, hvM⟩ := natDigits_spec (T % 60)
      have hid : T % 60 * nsMinute = T * nsMinute := by
        have : T % 60 = T := by omega
        rw [this]
      have hbound : valFrom 0 (natDigits (T % 60)) * nsMinute < i64cap := by
        rw [hvM, hid]; exact hT
      have hgo := goParse_m (natDigits (T % 60)) hdM hneM hbound
      rw [hvM, hid] at hgo
      apply parseDuration_of_go _ hgo
      apply toLowerL_self
      intro c hc
      rcases List.mem_append.mp hc with hc | hc
      · exact toLowerC_digit (hdM c hc)
      · simp only [List.mem_singleton] at hc; subst hc; decide

theorem toLowerL_digits_append (a : List Char) (ha : ∀ c ∈ a, isDigitC c)
    (r : List Char) (hr : toLowerL r = r) : toLowerL (a ++ r) = a ++ r := by
  rw [toLowerL, List.map_append]
  rw [show List.map toLowerC a = toLowerL a from rfl,
      show List.map toLowerC r = toLowerL r from rfl,
      toLowerL_self (fun c hc => toLowerC_digit (ha c hc)), hr]

/-- C7 counterexample: two strings of the supported shapes break the
round trip — "2562048h" wraps around int64 in the fallback multiply,
and "-5h" (numeric per Atoi) formats as "0m". -/
theorem claim_C7_counterexample :
    (durShape (toLowerL "2562048h".data) ∧
     parseDuration "2562048h" = .ok (-9223371273709551616) ∧
     formatDuration (-9223371273709551616) = "-34m" ∧
     parseDuration "-34m" = .ok (-2040000000000) ∧
     ((-2040000000000 : Int) ≠ -9223371273709551616)) ∧
    (durShape (toLowerL "-5h".data) ∧
     parseDuration "-5h" = .ok (-18000000000000) ∧
     formatDuration (-18000000000000) = "0m" ∧
     parseDuration "0m" = .ok 0 ∧ ((0 : Int) ≠ -18000000000000)) := by
  refine ⟨⟨Or.inr (Or.inl ⟨"2562048".data, by decide, by decide⟩),
           by decide, by decide, by decide, by decide⟩,
          ⟨Or.inr (Or.inl ⟨"-5".data, by decide, by decide⟩),
           by decide, by decide, by decide, by decide⟩⟩

/-- C7 amended: for every duration string of the three supported shapes
with digit-only components whose value fits in int64,
`formatDuration (parseDuration s)` parses back to an equal duration;
`formatDuration` renders zero as "0m", omits the hours part when the
hour count is zero, and omits the minutes part when the minute
remainder is zero and hours are nonzero. -/
theorem claim_C7 :
    (∀ a b : List Char, (∀ c ∈ a, isDigitC c) → a ≠ [] → (∀ c ∈ b, isDigitC c) → b ≠ [] →
      valFrom 0 a * nsHour + valFrom 0 b * nsMinute < i64cap →
      ∃ d, parseDuration ⟨a ++ 'h' :: (b ++ ['m'])⟩ = .ok d ∧
        parseDuration (formatDuration d) = .ok d) ∧
    (∀ a : List Char, (∀ c ∈ a, isDigitC c) → a ≠ [] →
      valFrom 0 a * nsHour < i64cap →
      ∃ d, parseDuration ⟨a ++ ['h']⟩ = .ok d ∧ parseDuration (formatDuration d) = .ok d) ∧
    (∀ b : List Char, (∀ c ∈ b, isDigitC c) → b ≠ [] →
      valFrom 0 b * nsMinute < i64cap →
      ∃ d, parseDuration ⟨b ++ ['m']⟩ = .ok d ∧ parseDuration (formatDuration d) = .ok d) ∧
    formatDuration 0 = "0m" ∧
    (∀ d : Int, 0 < d → d.tdiv (nsHour : Int) = 0 →
      formatDuration d = ⟨intStr ((d.tdiv (nsMinute : Int)).tmod 60) ++ ['m']⟩) ∧
    (∀ d : Int, 0 < d.tdiv (nsHour : Int) → (d.tdiv (nsMinute : Int)).tmod 60 = 0 →
      formatDuration d = ⟨intStr (d.tdiv (nsHour : Int)) ++ ['h']⟩) := by
  refine ⟨?_, ?_, ?_, by decide, ?_, ?_⟩
  · intro a b ha hane hb hbne hbound
    have hid : valFrom 0 a * nsHour + valFrom 0 b * nsMinute =
        (valFrom 0 a * 60 + valFrom 0 b) * nsMinute := by
      simp only [nsHour, nsMinute]
      ring
    have h1 : toLowerL (b ++ ['m']) = b ++ ['m'] :=
      toLowerL_digits_append b hb ['m'] (by decide)
    have h2 : toLowerL ('h' :: (b ++ ['m'])) = 'h' :: (b ++ ['m']) := by
      rw [toLowerL, List.map_cons, show toLowerC 'h' = 'h' from by decide,
          show List.map toLowerC (b ++ ['m']) = toLowerL (b ++ ['m']) from rfl, h1]
    have hlow := toLowerL_digits_append a ha _ h2
    have hgo := goParse_hm a b ha hane hb hbne hbound
    refine ⟨_, parseDuration_of_go hlow hgo, ?_⟩
    rw [show ((valFrom 0 a * nsHour + valFrom 0 b * nsMinute : Nat) : Int) =
        (((valFrom 0 a * 60 + valFrom 0 b) * nsMinute : Nat) : Int) from congrArg _ hid]
    exact roundtrip_minutes _ (hid ▸ hbound)
  · intro a ha hane hbound
    have hid : valFrom 0 a * nsHour = (valFrom 0 a * 60) * nsMinute := by
      simp only [nsHour, nsMinute]
      ring
    have hlow := toLowerL_digits_append a ha ['h'] (by decide)
    have hgo := goParse_h a ha hane hbound
    refine ⟨_, parseDuration_of_go hlow hgo, ?_⟩
    rw [show ((valFrom 0 a * nsHour : Nat) : Int) =
        (((valFrom 0 a * 60) * nsMinute : Nat) : Int) from congrArg _ hid]
    exact roundtrip_minutes _ (hid ▸ hbound)
  · intro b hb hbne hbound
    have hlow := toLowerL_digits_append b hb ['m'] (by decide)
    have hgo := goParse_m b hb hbne hbound
    exact ⟨_, parseDuration_of_go hlow hgo, roundtrip_minutes _ hbound⟩
  · intro d hd0 hH
    simp only [formatDuration]
    rw [if_neg (ne_of_gt hd0)]
    rw [if_neg (by rw [hH]; simp :
        ¬ (0 < d.tdiv ((nsHour : Nat) : Int) ∧ 0 < (d.tdiv ((nsMinute : Nat) : Int)).tmod 60))]
    rw [if_neg (by rw [hH]; simp : ¬ (0 < d.tdiv ((nsHour : Nat) : Int)))]
  · intro d hH hM
    have hd0 : ¬ (d = 0) := by
      intro hcon
      rw [hcon] at hH
      simp [Int.zero_tdiv] at hH
    simp only [formatDuration]
    rw [if_neg hd0]
    rw [if_neg (by rw [hM]; simp :
        ¬ (0 < d.tdiv ((nsHour : Nat) : Int) ∧ 0 < (d.tdiv ((nsMinute : Nat) : Int)).tmod 60))]
    rw [if_pos hH]

/-- C7 witness: "1h30m" round-trips. -/
theorem claim_C7_witness :
    ∃ d, parseDuration ⟨"1".data ++ 'h' :: ("30".data ++ ['m'])⟩ = .ok d ∧
      parseDuration (formatDuration d) = .ok d :=
  (claim_C7).1 "1".data "30".data (by decide) (by decide) (by decide) (by decide) (by decide)

end NotesCli
